import Mathlib

/-!
Verification of the class-scaffolding library (Rust) against its
natural-language specification, via a shallow embedding in Lean 4.

The embedding follows the source files:
* `scaffolding-macros/src/lib.rs` — the `scaffolding_struct` type augmenter,
  the `scaffolding_fn` constructor injector, and the derived capability
  behaviour (tags, addresses, email addresses, notes, phone numbers).
* `src/defaults.rs` — default-value provider (date arithmetic via chrono).
* `src/lib.rs` — sub-entity types (`Address`, `EmailAddress`, `PhoneNumber`,
  `Note`, `ActivityItem`), the email well-formedness check, and the
  serde_json-based `serialize`/`deserialized` contract.

Machine integers (`i64`) are modelled as `Int`; `u8` bytes as `Nat`;
fallible operations (Rust panics, `Result::Err`) as `Option`/`none`.
-/

namespace ClassScaffolding

/-! ## 1. Lifecycle & capability field catalog, type augmenter, constructor
injector (scaffolding-macros/src/lib.rs)

`scaffolding_struct` pushes fields onto the struct's named-field list;
`scaffolding_fn` rewrites the initializer list of the user's `new`.
Field types are represented by a small inductive mirroring the Rust types
appearing in the `quote!` fragments; initializer expressions likewise.  -/

/-- The six capability names of the catalog (the static strings ADDRESS,
EMAIL, METADATA, PHONE, NOTES, TAGS at the top of scaffolding-macros). -/
def capabilityCatalog : List String :=
  ["addresses", "email_addresses", "metadata", "notes", "phone_numbers", "tags"]

/-- `CORE_ATTRS` from scaffolding-macros/src/lib.rs: the six always-present
lifecycle attribute names. -/
def CORE_ATTRS : List String :=
  ["id", "created_dtm", "modified_dtm", "inactive_dtm", "expired_dtm", "activity"]

/-- The Rust type of an augmented field, as written in the `quote!` fragments
of `scaffolding_struct`.  `tyUser n` stands for a caller-declared field type. -/
inductive FieldTy where
  | tyString        -- String
  | tyI64           -- i64
  | tyActivityVec   -- Vec<ActivityItem>
  | tyAddressMap    -- BTreeMap<String, Address>
  | tyEmailMap      -- BTreeMap<String, EmailAddress>
  | tyStringMap     -- BTreeMap<String, String>
  | tyNoteMap       -- BTreeMap<String, Note>
  | tyPhoneMap      -- BTreeMap<String, PhoneNumber>
  | tyTagsVec       -- Vec<String>
  | tyUser (n : Nat)
deriving DecidableEq, Repr

/-- The six unconditional `fields.named.push(...)` calls of
`scaffolding_struct` (id, created_dtm, modified_dtm, inactive_dtm,
expired_dtm, activity), in source order. -/
def coreFieldPushes : List (String × FieldTy) :=
  [("id", .tyString), ("created_dtm", .tyI64), ("modified_dtm", .tyI64),
   ("inactive_dtm", .tyI64), ("expired_dtm", .tyI64), ("activity", .tyActivityVec)]

/-- The conditional pushes of `scaffolding_struct`: one `match
attrs.contains(&NAME) { true => push, false => {} }` per capability, in
source order (addresses, email_addresses, metadata, notes, phone_numbers,
tags). -/
def capFieldPushes (attrs : List String) : List (String × FieldTy) :=
  (if attrs.contains "addresses" then [("addresses", FieldTy.tyAddressMap)] else []) ++
  (if attrs.contains "email_addresses" then [("email_addresses", FieldTy.tyEmailMap)] else []) ++
  (if attrs.contains "metadata" then [("metadata", FieldTy.tyStringMap)] else []) ++
  (if attrs.contains "notes" then [("notes", FieldTy.tyNoteMap)] else []) ++
  (if attrs.contains "phone_numbers" then [("phone_numbers", FieldTy.tyPhoneMap)] else []) ++
  (if attrs.contains "tags" then [("tags", FieldTy.tyTagsVec)] else [])

/-- `scaffolding_struct`: the full field list of the augmented struct.  The
macro keeps the caller's named fields and appends the lifecycle fields and
then the requested capability fields, with no check whether a field of the
same name already exists. -/
def scaffolding_struct (attrs : List String) (base : List (String × FieldTy)) :
    List (String × FieldTy) :=
  base ++ coreFieldPushes ++ capFieldPushes attrs

/-- An initializer expression of the completed constructor, as written in the
`parse_quote!` fragments of `scaffolding_fn`.  `userExpr n` stands for a
caller-supplied initializer expression. -/
inductive InitExpr where
  | defaultId       -- defaults::id()
  | defaultNow      -- defaults::now()
  | addDaysNow90    -- defaults::add_days(defaults::now(), 90)
  | addYearsNow3    -- defaults::add_years(defaults::now(), 3)
  | vecNew          -- Vec::new()
  | btreeMapNew     -- BTreeMap::new()
  | userExpr (n : Nat)
deriving DecidableEq, Repr

/-- The default initializer `scaffolding_fn` emits for each attribute name
(the `match *attr` at the end of the macro); `none` for names the match
ignores (its `_ => {}` arm). -/
def defaultInit (attr : String) : Option InitExpr :=
  if attr = "id" then some .defaultId
  else if attr = "created_dtm" then some .defaultNow
  else if attr = "modified_dtm" then some .defaultNow
  else if attr = "inactive_dtm" then some .addDaysNow90
  else if attr = "expired_dtm" then some .addYearsNow3
  else if attr = "activity" then some .vecNew
  else if attr = "metadata" then some .btreeMapNew
  else if attr = "notes" then some .btreeMapNew
  else if attr = "tags" then some .vecNew
  else if attr = "addresses" then some .btreeMapNew
  else if attr = "email_addresses" then some .btreeMapNew
  else if attr = "phone_numbers" then some .btreeMapNew
  else none

/-- The `modify_attr_list` built by `scaffolding_fn`: the six core attribute
names plus each requested capability, pushed in source order. -/
def modifyAttrList (attrs : List String) : List String :=
  CORE_ATTRS ++
  (if attrs.contains "addresses" then ["addresses"] else []) ++
  (if attrs.contains "email_addresses" then ["email_addresses"] else []) ++
  (if attrs.contains "metadata" then ["metadata"] else []) ++
  (if attrs.contains "notes" then ["notes"] else []) ++
  (if attrs.contains "phone_numbers" then ["phone_numbers"] else []) ++
  (if attrs.contains "tags" then ["tags"] else [])

/-- The dedup pass of `scaffolding_fn`: for every member `mbr` of the user's
explicit initializer list, IF `CORE_ATTRS.contains(mbr)` the name is retained
out of `modify_attr_list`.  Names outside `CORE_ATTRS` (the capability
fields) are never removed, even when explicitly set by the user. -/
def dedupAgainstUser (userNames : List String) (attrList : List String) : List String :=
  attrList.filter (fun a => ¬ (userNames.contains a ∧ CORE_ATTRS.contains a))

/-- `scaffolding_fn`: the completed initializer list of the user's `new`.
Each surviving attribute of `modify_attr_list` is inserted at position 0 of
the initializer list (`expr_struct.fields.insert(0, line)`), so the
synthesized initializers end up in reverse catalog order, ahead of the
user's explicit initializers. -/
def scaffolding_fn (attrs : List String) (userFields : List (String × InitExpr)) :
    List (String × InitExpr) :=
  (dedupAgainstUser (userFields.map Prod.fst) (modifyAttrList attrs)).foldl
    (fun fields attr =>
      match defaultInit attr with
      | some e => (attr, e) :: fields
      | none => fields)
    userFields

/-- The number of fields named `n` in a field/initializer list. -/
def countName {α : Type} (n : String) (l : List (String × α)) : Nat :=
  (l.filter (fun f => f.1 == n)).length

/-! ## 2. Tags (derive ScaffoldingTags, scaffolding-macros/src/lib.rs) -/

/-- `has_tag`: filters the tag list for exact matches, collects the matches
into a single `String` (Rust `collect::<String>()` concatenates them), and
returns whether that string's length is non-zero.  (Rust `len()` is the byte
length; for a concatenation of equal strings it is zero exactly when the
character count is, so `String.length` is equivalent here.) -/
def has_tag (tags : List String) (tag : String) : Bool :=
  match (String.join (tags.filter (fun t => t == tag))).length with
  | 0 => false
  | _ => true

/-- `add_tag`: appends the tag unless `has_tag` reports it present (in which
case the Rust code only prints a diagnostic and leaves the list alone). -/
def add_tag (tags : List String) (tag : String) : List String :=
  match has_tag tags tag with
  | false => tags ++ [tag]
  | true => tags

/-- `remove_tag`: `position(..).unwrap()` followed by `Vec::remove`.  The
`unwrap` panics when the tag is absent; the panic is modelled as `none`. -/
def remove_tag (tags : List String) (tag : String) : Option (List String) :=
  match tags.findIdx? (fun t => t == tag) with
  | some pos => some (tags.eraseIdx pos)
  | none => none

/-! ## 3. Sub-entities (src/lib.rs)

The constructors call `defaults::id()` and `defaults::now()`; the identifier
and the clock readings are passed explicitly here (`defaults::now()` reads
the system clock, so each read is a parameter; the source reads it once for
`created_dtm` and once for `modified_dtm`, in that order). -/

structure ActivityItem where
  created_dtm : Int
  action : String
  description : String
deriving DecidableEq, Repr

/-- `ActivityItem::new` (created_dtm is `defaults::now()` at construction). -/
def ActivityItem.new (tNow : Int) (name descr : String) : ActivityItem :=
  { created_dtm := tNow, action := name, description := descr }

structure Address where
  id : String
  created_dtm : Int
  modified_dtm : Int
  category : String
  line_1 : String
  line_2 : String
  line_3 : String
  line_4 : String
  country_code : String
deriving DecidableEq, Repr

/-- `Address::new` — `id: defaults::id()`, `created_dtm: defaults::now()`,
`modified_dtm: defaults::now()` (two successive clock reads `t1`, `t2`). -/
def Address.new (ident : String) (t1 t2 : Int)
    (category line_1 line_2 line_3 line_4 country_code : String) : Address :=
  { id := ident
    created_dtm := t1
    modified_dtm := t2
    category := category
    line_1 := line_1
    line_2 := line_2
    line_3 := line_3
    line_4 := line_4
    country_code := country_code }

/-- `Address::update`: overwrites every payload field and sets
`modified_dtm = defaults::now()` (the clock read `tNow`); `created_dtm` and
`id` are untouched. -/
def Address.update (a : Address) (tNow : Int)
    (category line_1 line_2 line_3 line_4 country_code : String) : Address :=
  { a with
    category := category
    line_1 := line_1
    line_2 := line_2
    line_3 := line_3
    line_4 := line_4
    country_code := country_code
    modified_dtm := tNow }

structure EmailAddress where
  id : String
  created_dtm : Int
  modified_dtm : Int
  category : String
  address : String
deriving DecidableEq, Repr

/-- `EmailAddress::new`. -/
def EmailAddress.new (ident : String) (t1 t2 : Int) (category address : String) :
    EmailAddress :=
  { id := ident
    created_dtm := t1
    modified_dtm := t2
    category := category
    address := address }

structure PhoneNumber where
  id : String
  created_dtm : Int
  modified_dtm : Int
  category : String
  number : String
  country_code : String
deriving DecidableEq, Repr

/-- `PhoneNumber::new`. -/
def PhoneNumber.new (ident : String) (t1 t2 : Int)
    (category number country_code : String) : PhoneNumber :=
  { id := ident
    created_dtm := t1
    modified_dtm := t2
    category := category
    number := number
    country_code := country_code }

/-- Modelled from the spec: `defaults::access()` is referenced by `Note::new`
but its definition is not among the available sources; the spec leaves the
default access level implementation-defined, so any constant string models
it.  No claim depends on its value. -/
def defaultsAccess : String := "public"

structure Note where
  id : String
  created_dtm : Int
  modified_dtm : Int
  author : String
  access : String
  content : List Nat   -- Vec<u8>
deriving DecidableEq, Repr

/-- `Note::new` — `access` falls back to `defaults::access()` when `None`. -/
def Note.new (ident : String) (t1 t2 : Int) (auth : String) (cont : List Nat)
    (acc : Option String) : Note :=
  { id := ident
    created_dtm := t1
    modified_dtm := t2
    author := auth
    access := (match acc with | some a => a | none => defaultsAccess)
    content := cont }

/-- `Note::update`: replaces author and content, keeps the previous access
when `acc` is `None`, and sets `modified_dtm = defaults::now()`. -/
def Note.update (n : Note) (tNow : Int) (auth : String) (cont : List Nat)
    (acc : Option String) : Note :=
  { n with
    author := auth
    content := cont
    access := (match acc with | some a => a | none => n.access)
    modified_dtm := tNow }

/-! ## 4. Capability collections (BTreeMap\<String, _\> fields)

The id-keyed collections are modelled as association lists with the
BTreeMap key-uniqueness discipline; `BTreeMap::remove(&id)` deletes the
entry with that key if present and does nothing otherwise. -/

/-- `BTreeMap::remove(&id)` on an association list: removes the (unique)
entry whose key equals `ident`, or leaves the list unchanged. -/
def mapRemove {α : Type} (m : List (String × α)) (ident : String) : List (String × α) :=
  m.eraseP (fun kv => kv.1 == ident)

/-- `remove_address` (derive ScaffoldingAddresses): `self.addresses.remove(&id)`. -/
def remove_address (addresses : List (String × Address)) (ident : String) :
    List (String × Address) := mapRemove addresses ident

/-- `remove_email_address` (derive ScaffoldingEmailAddresses). -/
def remove_email_address (emails : List (String × EmailAddress)) (ident : String) :
    List (String × EmailAddress) := mapRemove emails ident

/-- `remove_note` (derive ScaffoldingNotes). -/
def remove_note (notes : List (String × Note)) (ident : String) :
    List (String × Note) := mapRemove notes ident

/-- `remove_phone_number` (derive ScaffoldingPhoneNumbers). -/
def remove_phone_number (phones : List (String × PhoneNumber)) (ident : String) :
    List (String × PhoneNumber) := mapRemove phones ident

/-! ## 5. Notes search (derive ScaffoldingNotes)

`search_notes` decodes each note's content with `String::from_utf8`, maps
the error case to the lossy decoding — and then calls `Result::unwrap`,
which still panics on the `Err` branch.  The decoder below is the standard
UTF-8 validator that `String::from_utf8` performs; the panic is `none`. -/

/-- A UTF-8 continuation byte: `0x80..=0xBF`. -/
def isCont (b : Nat) : Bool := 0x80 ≤ b && b ≤ 0xBF

/-- `String::from_utf8`: validates and decodes a byte sequence, `none` on
invalid UTF-8 (where Rust returns `Err(FromUtf8Error)`). -/
def utf8Decode : List Nat → Option (List Char)
  | [] => some []
  | b0 :: t =>
    if b0 < 0x80 then
      (utf8Decode t).map (fun cs => Char.ofNat b0 :: cs)
    else if 0xC2 ≤ b0 && b0 ≤ 0xDF then
      match t with
      | b1 :: t1 =>
        if isCont b1 then
          (utf8Decode t1).map (fun cs => Char.ofNat ((b0 - 0xC0) * 0x40 + (b1 - 0x80)) :: cs)
        else none
      | [] => none
    else if 0xE0 ≤ b0 && b0 ≤ 0xEF then
      match t with
      | b1 :: b2 :: t2 =>
        let lo1 := if b0 = 0xE0 then 0xA0 else 0x80
        let hi1 := if b0 = 0xED then 0x9F else 0xBF
        if (lo1 ≤ b1 && b1 ≤ hi1) && isCont b2 then
          (utf8Decode t2).map (fun cs =>
            Char.ofNat ((b0 - 0xE0) * 0x1000 + (b1 - 0x80) * 0x40 + (b2 - 0x80)) :: cs)
        else none
      | _ => none
    else if 0xF0 ≤ b0 && b0 ≤ 0xF4 then
      match t with
      | b1 :: b2 :: b3 :: t3 =>
        let lo1 := if b0 = 0xF0 then 0x90 else 0x80
        let hi1 := if b0 = 0xF4 then 0x8F else 0xBF
        if (lo1 ≤ b1 && b1 ≤ hi1) && (isCont b2 && isCont b3) then
          (utf8Decode t3).map (fun cs =>
            Char.ofNat ((b0 - 0xF0) * 0x40000 + (b1 - 0x80) * 0x1000 +
              (b2 - 0x80) * 0x40 + (b3 - 0x80)) :: cs)
        else none
      | _ => none
    else none

/-- Rust `str::contains(&str)`: substring containment. -/
def containsSub (hay pat : List Char) : Bool :=
  hay.tails.any (fun suffix => pat.isPrefixOf suffix)

/-- `search_notes`: walks the notes map in order; for each note it decodes
the content (`from_utf8(..).map_err(lossy).unwrap()` — the `unwrap` panics,
i.e. yields `none`, whenever the content is not valid UTF-8) and keeps the
notes whose decoded text contains the search string. -/
def search_notes (notes : List (String × Note)) (search : String) :
    Option (List Note) :=
  match notes with
  | [] => some []
  | (_, note) :: rest =>
    match utf8Decode note.content with
    | none => none
    | some cont =>
      match search_notes rest search with
      | none => none
      | some results =>
        some (if containsSub cont search.data then note :: results else results)

/-! ## 6. Default value provider (src/defaults.rs)

`add_days` adds `chrono::Duration::try_days(days)` — exactly `days * 86400`
seconds.  `add_months`/`add_years` add `chrono::Months`: the timestamp is
split into a civil date (proleptic Gregorian, the standard days-from-epoch
conversion chrono implements) and seconds-of-day, the month count is added
to `12*year + (month-1)`, and the day-of-month is clamped to the target
month's length (chrono `diff_months`).  Rust `div_euclid`/`rem_euclid`
correspond to Lean's `Int` `/` and `%` here (Euclidean division).
Timestamps are modelled as unbounded `Int` (`i64` overflow is out of range
for every value considered). -/

/-- Proleptic-Gregorian leap year test. -/
def isLeapYear (y : Int) : Bool := y % 4 == 0 && (y % 100 != 0 || y % 400 == 0)

/-- The number of days of month `m` (1–12) of year `y` (chrono's
`[31, feb_days, 31, 30, 31, 30, 31, 31, 30, 31, 30, 31]` table). -/
def daysInMonth (y m : Int) : Int :=
  if m = 2 then (if isLeapYear y then 29 else 28)
  else if m = 4 ∨ m = 6 ∨ m = 9 ∨ m = 11 then 30
  else 31

/-- Civil date `(year, month, day)` from days since 1970-01-01 (the standard
era/year-of-era/day-of-year decomposition used by chrono's calendar). -/
def civilFromDays (z0 : Int) : Int × Int × Int :=
  let z := z0 + 719468
  let era := z / 146097
  let doe := z - era * 146097
  let yoe := (doe - doe / 1460 + doe / 36524 - doe / 146096) / 365
  let y := yoe + era * 400
  let doy := doe - (365 * yoe + yoe / 4 - yoe / 100)
  let mp := (5 * doy + 2) / 153
  let d := doy - (153 * mp + 2) / 5 + 1
  let m := mp + (if mp < 10 then 3 else -9)
  (y + (if m ≤ 2 then 1 else 0), m, d)

/-- Day count contributed by the (March-shifted) years before `yi`:
`yoe*365 + yoe/4 - yoe/100 + era*146097` in the era decomposition. -/
def yearDayCount (yi : Int) : Int :=
  (yi - (yi / 400) * 400) * 365 + (yi - (yi / 400) * 400) / 4
    - (yi - (yi / 400) * 400) / 100 + (yi / 400) * 146097

/-- Days since 1970-01-01 of the civil date `(y, m, d)` (inverse direction
of `civilFromDays`). -/
def daysFromCivil (y m d : Int) : Int :=
  yearDayCount (y - (if m ≤ 2 then 1 else 0))
    + (153 * (m + (if m > 2 then -3 else 9)) + 2) / 5 + d - 1 - 719468

/-- `defaults::add_days`: `DateTime::from_timestamp(dtm, 0) +
Duration::try_days(days)`, i.e. exact 86400-second days. -/
def add_days (dtm days : Int) : Int := dtm + days * 86400

/-- `defaults::add_months`: `DateTime::from_timestamp(dtm, 0) +
Months::new(months)`.  chrono adds the months to the year/month pair and
clamps the day-of-month to the target month's length; the time of day is
kept. -/
def add_months (dtm : Int) (months : Nat) : Int :=
  match civilFromDays (dtm / 86400) with
  | (y, m, d) =>
    daysFromCivil ((12 * y + (m - 1) + (months : Int)) / 12)
        ((12 * y + (m - 1) + (months : Int)) % 12 + 1)
        (min d (daysInMonth ((12 * y + (m - 1) + (months : Int)) / 12)
          ((12 * y + (m - 1) + (months : Int)) % 12 + 1))) * 86400
      + dtm % 86400

/-- `defaults::add_years`: `Months::new(years * 12)`. -/
def add_years (dtm : Int) (years : Nat) : Int := add_months dtm (years * 12)

/-- `defaults::never`: the constant unix timestamp of 9999-12-31T23:59:59Z. -/
def never : Int := 253402261199

/-- The first day (as a day number) of the month after `(y, m)`. -/
def monthSuccStart (y m : Int) : Int :=
  if m = 12 then daysFromCivil (y + 1) 1 1 else daysFromCivil y (m + 1) 1

/-! ## 7. EmailAddress::is_valid (src/lib.rs)

`is_valid` compiles a fixed email regular expression and calls
`Regex::is_match(&self.address)`: true exactly when SOME substring of the
address belongs to the pattern's language (Rust regex matches are
unanchored).  The pattern is transcribed below into a small regex AST; the
matcher is the standard Brzozowski-derivative recognizer (with smart
constructors to keep derivatives small), and `is_match` is the scan over
all substrings. -/

inductive RE where
  | fail
  | eps
  | cls (p : Char → Bool)
  | cat (r1 r2 : RE)
  | alt (r1 r2 : RE)
  | star (r : RE)

def nullable : RE → Bool
  | .fail => false
  | .eps => true
  | .cls _ => false
  | .cat r1 r2 => nullable r1 && nullable r2
  | .alt r1 r2 => nullable r1 || nullable r2
  | .star _ => true

def mkCat : RE → RE → RE
  | .fail, _ => .fail
  | _, .fail => .fail
  | .eps, r => r
  | r, .eps => r
  | r1, r2 => .cat r1 r2

def mkAlt : RE → RE → RE
  | .fail, r => r
  | r, .fail => r
  | r1, r2 => .alt r1 r2

def reDeriv (r : RE) (c : Char) : RE :=
  match r with
  | .fail => .fail
  | .eps => .fail
  | .cls p => if p c then .eps else .fail
  | .cat r1 r2 =>
    if nullable r1 then mkAlt (mkCat (reDeriv r1 c) r2) (reDeriv r2 c)
    else mkCat (reDeriv r1 c) r2
  | .alt r1 r2 => mkAlt (reDeriv r1 c) (reDeriv r2 c)
  | .star r1 => mkCat (reDeriv r1 c) (.star r1)

def reMatch (r : RE) (cs : List Char) : Bool := nullable (cs.foldl reDeriv r)

def reSearch (r : RE) (cs : List Char) : Bool :=
  cs.tails.any (fun suf => suf.inits.any (fun mid => reMatch r mid))

def rePlus (r : RE) : RE := .cat r (.star r)
def reOpt (r : RE) : RE := .alt .eps r
def reChar (n : Nat) : RE := .cls (fun c => c.toNat = n)
def inRangeN (lo hi : Nat) (c : Char) : Bool := lo ≤ c.toNat && c.toNat ≤ hi
def isLowerAlpha (c : Char) : Bool := 'a' ≤ c && c ≤ 'z'
def isDigitCh (c : Char) : Bool := '0' ≤ c && c ≤ '9'
def alnumLow (c : Char) : Bool := isLowerAlpha c || isDigitCh c
def alnumHyphen (c : Char) : Bool := alnumLow c || c.toNat = 45

def atext (c : Char) : Bool :=
  alnumLow c ||
    [33, 35, 36, 37, 38, 39, 42, 43, 47, 61, 63, 94, 95, 96,
     123, 124, 125, 126, 45].contains c.toNat

def qtext (c : Char) : Bool :=
  inRangeN 1 8 c || c.toNat = 11 || c.toNat = 12 || inRangeN 14 31 c ||
    c.toNat = 33 || inRangeN 35 91 c || inRangeN 93 127 c

def escText (c : Char) : Bool :=
  inRangeN 1 9 c || c.toNat = 11 || c.toNat = 12 || inRangeN 14 127 c

def dtext (c : Char) : Bool :=
  inRangeN 1 8 c || c.toNat = 11 || c.toNat = 12 || inRangeN 14 31 c ||
    inRangeN 33 90 c || inRangeN 83 127 c

def localDotAtom : RE :=
  .cat (rePlus (.cls atext)) (.star (.cat (reChar 46) (rePlus (.cls atext))))

def localQuoted : RE :=
  .cat (reChar 34)
    (.cat (.star (.alt (.cls qtext) (.cat (reChar 92) (.cls escText)))) (reChar 34))

def domLabel : RE :=
  .cat (.cls alnumLow) (reOpt (.cat (.star (.cls alnumHyphen)) (.cls alnumLow)))

def domDotted : RE := .cat (rePlus (.cat domLabel (reChar 46))) domLabel

def octet : RE :=
  .alt (.cat (reChar 50) (.cat (reChar 53) (.cls (inRangeN 48 53))))
    (.alt (.cat (reChar 50) (.cat (.cls (inRangeN 48 52)) (.cls isDigitCh)))
      (.cat (reOpt (.cls (fun c => c.toNat = 48 || c.toNat = 49)))
        (.cat (.cls isDigitCh) (reOpt (.cls isDigitCh)))))

def domLiteralTail : RE :=
  .alt octet
    (.cat (.star (.cls alnumHyphen))
      (.cat (.cls alnumLow)
        (.cat (reChar 58)
          (rePlus (.alt (.cls dtext) (.cat (reChar 92) (.cls escText)))))))

def domBracket : RE :=
  .cat (reChar 91)
    (.cat (.cat (.cat octet (reChar 46)) (.cat (.cat octet (reChar 46)) (.cat octet (reChar 46))))
      (.cat domLiteralTail (reChar 93)))

def emailRE : RE :=
  .cat (.alt localDotAtom localQuoted) (.cat (reChar 64) (.alt domDotted domBracket))

/-- `EmailAddress::is_valid`: an unanchored `Regex::is_match` of the email
pattern (`emailRE` above: dot-atom or quoted local part, `@`, dotted domain
or bracket literal) against the `address` field. -/
def is_valid (e : EmailAddress) : Bool := reSearch emailRE e.address.data

/-! ## 8. Scaffolding trait: serialize / deserialized (serde_json model,
src/lib.rs `Scaffolding::serialize` = `serde_json::to_string(&self)` and
`Scaffolding::deserialized` = `serde_json::from_slice(serialized)`).
serde_json prints compactly with struct fields in declaration order, escapes
strings with the short escapes and lowercase `\u00xx` for the remaining
control characters; parsing skips ASCII whitespace between tokens, accepts
the standard escapes, errors on anything after the value, and the derived
`Deserialize` errors on missing or duplicate known fields. -/
/-- A JSON value as serde_json sees it.  Numbers are restricted to integers
(the entity's numeric fields are `i64`; a fractional or exponent part makes
the value undecodable into them, which the parser models by failing). -/
inductive Json where
  | jNull
  | jBool (b : Bool)
  | jNum (i : Int)
  | jStr (s : String)
  | jArr (items : List Json)
  | jObj (members : List (String × Json))

def quoteC : Char := Char.ofNat 34
def bslashC : Char := Char.ofNat 92
def lbraceC : Char := Char.ofNat 123
def rbraceC : Char := Char.ofNat 125

/-- The lowercase hex digit used by serde_json's `\u00xx` escapes. -/
def hexLowC (n : Nat) : Char :=
  Char.ofNat (if n < 10 then 48 + n else 87 + n)

/-- serde_json's escaping of one string character: `"` and `\` get a
backslash, the five short control escapes are used where they exist, the
remaining control characters become `\u00xx`, everything else is emitted
verbatim. -/
def jEscape (c : Char) : List Char :=
  if c = quoteC then [bslashC, quoteC]
  else if c = bslashC then [bslashC, bslashC]
  else if c.toNat = 8 then [bslashC, 'b']
  else if c.toNat = 9 then [bslashC, 't']
  else if c.toNat = 10 then [bslashC, 'n']
  else if c.toNat = 12 then [bslashC, 'f']
  else if c.toNat = 13 then [bslashC, 'r']
  else if c.toNat < 32 then
    [bslashC, 'u', '0', '0', hexLowC (c.toNat / 16), hexLowC (c.toNat % 16)]
  else [c]

def printStrBody : List Char → List Char
  | [] => []
  | c :: t => jEscape c ++ printStrBody t

/-- A JSON string literal: quote, escaped body, quote. -/
def strChars (s : String) : List Char :=
  quoteC :: (printStrBody s.data ++ [quoteC])

def digitC (n : Nat) : Char := Char.ofNat (48 + n)

/-- Decimal digits of `n`, most significant first. -/
def natChars (n : Nat) : List Char :=
  if n < 10 then [digitC n] else natChars (n / 10) ++ [digitC (n % 10)]
termination_by n
decreasing_by omega

/-- serde_json's integer output: optional minus sign, decimal digits. -/
def intChars (i : Int) : List Char :=
  (if i < 0 then ['-'] else []) ++ natChars i.natAbs

mutual
def printJson : Json → List Char
  | .jNull => ['n', 'u', 'l', 'l']
  | .jBool true => ['t', 'r', 'u', 'e']
  | .jBool false => ['f', 'a', 'l', 's', 'e']
  | .jNum i => intChars i
  | .jStr s => strChars s
  | .jArr es => '[' :: (printArrItems es ++ [']'])
  | .jObj ms => lbraceC :: (printObjItems ms ++ [rbraceC])
def printArrItems : List Json → List Char
  | [] => []
  | [e] => printJson e
  | e :: e2 :: es => printJson e ++ ',' :: printArrItems (e2 :: es)
def printObjItems : List (String × Json) → List Char
  | [] => []
  | [(k, v)] => strChars k ++ ':' :: printJson v
  | (k, v) :: kv2 :: ms => strChars k ++ ':' :: (printJson v ++ ',' :: printObjItems (kv2 :: ms))
end

/-! Parsing (serde_json `from_slice`). -/

def isWsC (c : Char) : Bool :=
  c = ' ' || c.toNat = 9 || c.toNat = 10 || c.toNat = 13

def wsSkip : List Char → List Char
  | [] => []
  | c :: t => if isWsC c then wsSkip t else c :: t

def isDigitC (c : Char) : Bool := '0' ≤ c && c ≤ '9'

def hexValC (c : Char) : Option Nat :=
  if '0' ≤ c && c ≤ '9' then some (c.toNat - 48)
  else if 'a' ≤ c && c ≤ 'f' then some (c.toNat - 87)
  else if 'A' ≤ c && c ≤ 'F' then some (c.toNat - 55)
  else none

/-- The single-character escapes serde_json accepts after a backslash. -/
def unescapeC (c : Char) : Option Char :=
  if c = quoteC then some quoteC
  else if c = bslashC then some bslashC
  else if c = '/' then some '/'
  else if c = 'b' then some (Char.ofNat 8)
  else if c = 'f' then some (Char.ofNat 12)
  else if c = 'n' then some (Char.ofNat 10)
  else if c = 'r' then some (Char.ofNat 13)
  else if c = 't' then some (Char.ofNat 9)
  else none

/-- Decode a 4-digit hex escape payload. -/
def hex4 (a b c d : Char) : Option Nat :=
  match hexValC a, hexValC b, hexValC c, hexValC d with
  | some va, some vb, some vc, some vd => some (((va * 16 + vb) * 16 + vc) * 16 + vd)
  | _, _, _, _ => none

/-- String body after the opening quote.  serde_json rejects raw control
characters, accepts the eight short escapes and `\uXXXX` (with surrogate
pairs required to be complete and ordered).  The `fuel` argument only
bounds the iteration (callers pass the remaining input length; every step
consumes at least one character, so the bound is never the reason a parse
fails). -/
def parseStrBody (fuel : Nat) (acc : List Char) (input : List Char) :
    Option (String × List Char) :=
  match fuel, input with
  | 0, _ => none
  | _ + 1, [] => none
  | fuel + 1, c :: t =>
    if c = quoteC then some (String.mk acc.reverse, t)
    else if c = bslashC then
      match t with
      | [] => none
      | e :: t2 =>
        if e = 'u' then
          match t2 with
          | a :: b :: c2 :: d :: t3 =>
            match hex4 a b c2 d with
            | none => none
            | some code =>
              if 0xD800 ≤ code ∧ code ≤ 0xDBFF then
                match t3 with
                | e1 :: u2 :: a2 :: b2 :: c3 :: d2 :: t4 =>
                  if e1 = bslashC ∧ u2 = 'u' then
                    match hex4 a2 b2 c3 d2 with
                    | none => none
                    | some lo =>
                      if 0xDC00 ≤ lo ∧ lo ≤ 0xDFFF then
                        parseStrBody fuel
                          (Char.ofNat (0x10000 + (code - 0xD800) * 0x400 + (lo - 0xDC00)) :: acc) t4
                      else none
                  else none
                | _ => none
              else if 0xDC00 ≤ code ∧ code ≤ 0xDFFF then none
              else parseStrBody fuel (Char.ofNat code :: acc) t3
          | _ => none
        else
          match unescapeC e with
          | some ch => parseStrBody fuel (ch :: acc) t2
          | none => none
    else if c.toNat < 32 then none
    else parseStrBody fuel (c :: acc) t

/-- Longest digit run at the head of the input. -/
def takeDigitRun : List Char → List Char × List Char
  | [] => ([], [])
  | c :: t =>
    if isDigitC c then
      let (ds, r) := takeDigitRun t
      (c :: ds, r)
    else ([], c :: t)

def digitsToNat (ds : List Char) : Nat :=
  ds.foldl (fun acc c => acc * 10 + (c.toNat - 48)) 0

/-- Whether the remaining input would turn the digits into a float
(fraction or exponent part follows). -/
def floatFollows : List Char → Bool
  | [] => false
  | c :: _ => c = '.' || c = 'e' || c = 'E'

def parseNumTail (neg : Bool) (cs1 : List Char) : Option (Int × List Char) :=
  match takeDigitRun cs1 with
  | ([], _) => none
  | (d :: ds, r) =>
    if d = '0' ∧ ds ≠ [] then none
    else if floatFollows r then none
    else
      let v : Int := (digitsToNat (d :: ds) : Int)
      some (if neg then -v else v, r)

/-- A JSON number restricted to the integer grammar: optional minus sign,
digits without a redundant leading zero; a following fraction or exponent
part would make it a float, which the `i64` fields cannot take, so it
fails here. -/
def parseNum (cs : List Char) : Option (Int × List Char) :=
  match cs with
  | '-' :: r => parseNumTail true r
  | _ => parseNumTail false cs

mutual
def parseJVal : Nat → List Char → Option (Json × List Char)
  | 0, _ => none
  | fuel + 1, cs =>
    match wsSkip cs with
    | [] => none
    | c :: r =>
      if c = 'n' then
        match r with
        | 'u' :: 'l' :: 'l' :: r2 => some (.jNull, r2)
        | _ => none
      else if c = 't' then
        match r with
        | 'r' :: 'u' :: 'e' :: r2 => some (.jBool true, r2)
        | _ => none
      else if c = 'f' then
        match r with
        | 'a' :: 'l' :: 's' :: 'e' :: r2 => some (.jBool false, r2)
        | _ => none
      else if c = quoteC then
        match parseStrBody r.length [] r with
        | some (s, r2) => some (.jStr s, r2)
        | none => none
      else if c = '[' then
        match wsSkip r with
        | [] => none
        | cb :: r2 =>
          if cb = ']' then some (.jArr [], r2)
          else
            match parseArrItems fuel (cb :: r2) with
            | some (items, r3) => some (.jArr items, r3)
            | none => none
      else if c = lbraceC then
        match wsSkip r with
        | [] => none
        | cb :: r2 =>
          if cb = rbraceC then some (.jObj [], r2)
          else
            match parseObjItems fuel (cb :: r2) with
            | some (members, r3) => some (.jObj members, r3)
            | none => none
      else if c = '-' ∨ isDigitC c then
        match parseNum (c :: r) with
        | some (i, r2) => some (.jNum i, r2)
        | none => none
      else none
def parseArrItems : Nat → List Char → Option (List Json × List Char)
  | 0, _ => none
  | fuel + 1, cs =>
    match parseJVal fuel cs with
    | none => none
    | some (v, r) =>
      match wsSkip r with
      | [] => none
      | c2 :: r2 =>
        if c2 = ',' then
          match parseArrItems fuel r2 with
          | some (items, r3) => some (v :: items, r3)
          | none => none
        else if c2 = ']' then some ([v], r2)
        else none
def parseObjItems : Nat → List Char → Option (List (String × Json) × List Char)
  | 0, _ => none
  | fuel + 1, cs =>
    match wsSkip cs with
    | [] => none
    | c :: r =>
      if c = quoteC then
        match parseStrBody r.length [] r with
        | none => none
        | some (k, r1) =>
          match wsSkip r1 with
          | ':' :: r2 =>
            match parseJVal fuel r2 with
            | none => none
            | some (v, r3) =>
              match wsSkip r3 with
              | [] => none
              | c4 :: r4 =>
                if c4 = ',' then
                  match parseObjItems fuel r4 with
                  | some (members, r5) => some ((k, v) :: members, r5)
                  | none => none
                else if c4 = rbraceC then some ([(k, v)], r4)
                else none
          | _ => none
      else none
end

/-! The representative augmented entity: `#[scaffolding_struct("tags")] struct
MyEntity {}` from the crate's tags test — serde serializes its fields in
declaration order: the six lifecycle fields, then `tags`. -/

structure Entity where
  id : String
  created_dtm : Int
  modified_dtm : Int
  inactive_dtm : Int
  expired_dtm : Int
  activity : List ActivityItem
  tags : List String
deriving DecidableEq, Repr

def activityJson (a : ActivityItem) : Json :=
  .jObj [("created_dtm", .jNum a.created_dtm), ("action", .jStr a.action),
    ("description", .jStr a.description)]

def entityJson (e : Entity) : Json :=
  .jObj [("id", .jStr e.id), ("created_dtm", .jNum e.created_dtm),
    ("modified_dtm", .jNum e.modified_dtm), ("inactive_dtm", .jNum e.inactive_dtm),
    ("expired_dtm", .jNum e.expired_dtm),
    ("activity", .jArr (e.activity.map activityJson)),
    ("tags", .jArr (e.tags.map Json.jStr))]

/-- `Scaffolding::serialize`: `serde_json::to_string(&self)`. -/
def serialize (e : Entity) : String := String.mk (printJson (entityJson e))

/-- serde's derived struct visitor takes a known field that occurs exactly
once (duplicates are a `duplicate field` error, absences a `missing field`
error); unknown fields are ignored. -/
def fieldOnce (ms : List (String × Json)) (k : String) : Option Json :=
  match ms.filter (fun kv => kv.1 == k) with
  | [kv] => some kv.2
  | _ => none

def asStr : Json → Option String
  | .jStr s => some s
  | _ => none

def asInt : Json → Option Int
  | .jNum i => some i
  | _ => none

def asArr : Json → Option (List Json)
  | .jArr items => some items
  | _ => none

def decodeList {α : Type} (f : Json → Option α) : List Json → Option (List α)
  | [] => some []
  | j :: js =>
    match f j with
    | none => none
    | some a =>
      match decodeList f js with
      | none => none
      | some l => some (a :: l)

def activityFromJson (j : Json) : Option ActivityItem := do
  match j with
  | .jObj ms => do
    let cd ← fieldOnce ms "created_dtm" >>= asInt
    let act ← fieldOnce ms "action" >>= asStr
    let descr ← fieldOnce ms "description" >>= asStr
    pure { created_dtm := cd, action := act, description := descr }
  | _ => none

def entityFromJson (j : Json) : Option Entity := do
  match j with
  | .jObj ms => do
    let idv ← fieldOnce ms "id" >>= asStr
    let cd ← fieldOnce ms "created_dtm" >>= asInt
    let md ← fieldOnce ms "modified_dtm" >>= asInt
    let ind ← fieldOnce ms "inactive_dtm" >>= asInt
    let exd ← fieldOnce ms "expired_dtm" >>= asInt
    let act ← (fieldOnce ms "activity" >>= asArr) >>= decodeList activityFromJson
    let tg ← (fieldOnce ms "tags" >>= asArr) >>= decodeList asStr
    pure { id := idv, created_dtm := cd, modified_dtm := md, inactive_dtm := ind,
           expired_dtm := exd, activity := act, tags := tg }
  | _ => none

/-- `Scaffolding::deserialized`: `serde_json::from_slice` — parse one JSON
value (leading/trailing whitespace allowed, nothing else may follow) and
decode it structurally into the entity. -/
def deserialized (s : String) : Option Entity :=
  match parseJVal (s.data.length + 1) s.data with
  | some (j, r) => if wsSkip r = [] then entityFromJson j else none
  | none => none



/-- The characters that may not directly follow a serialized number for the
number parse to stop cleanly (a digit would extend it; `.`, `e`, `E` would
make it a float). -/
def numStop : List Char → Bool
  | [] => true
  | c :: _ => !(isDigitC c || c = '.' || c = 'e' || c = 'E')


/-- The body of `parseJVal` after the leading whitespace skip, named so the
step lemmas can unfold one parsing step at a time. -/
def jValBody (fuel : Nat) (c : Char) (r : List Char) : Option (Json × List Char) :=
  if c = 'n' then
    match r with
    | 'u' :: 'l' :: 'l' :: r2 => some (.jNull, r2)
    | _ => none
  else if c = 't' then
    match r with
    | 'r' :: 'u' :: 'e' :: r2 => some (.jBool true, r2)
    | _ => none
  else if c = 'f' then
    match r with
    | 'a' :: 'l' :: 's' :: 'e' :: r2 => some (.jBool false, r2)
    | _ => none
  else if c = quoteC then
    match parseStrBody r.length [] r with
    | some (s, r2) => some (.jStr s, r2)
    | none => none
  else if c = '[' then
    match wsSkip r with
    | [] => none
    | cb :: r2 =>
      if cb = ']' then some (.jArr [], r2)
      else
        match parseArrItems fuel (cb :: r2) with
        | some (items, r3) => some (.jArr items, r3)
        | none => none
  else if c = lbraceC then
    match wsSkip r with
    | [] => none
    | cb :: r2 =>
      if cb = rbraceC then some (.jObj [], r2)
      else
        match parseObjItems fuel (cb :: r2) with
        | some (members, r3) => some (.jObj members, r3)
        | none => none
  else if c = '-' ∨ isDigitC c then
    match parseNum (c :: r) with
    | some (i, r2) => some (.jNum i, r2)
    | none => none
  else none


/-- The all-empty entity used as the round-trip counterexample input. -/
def entityO : Entity where
  id := ""
  created_dtm := 0
  modified_dtm := 0
  inactive_dtm := 0
  expired_dtm := 0
  activity := []
  tags := []

/-! # Supporting lemmas -/

/-- `yearDayCount` in closed form. -/
theorem yearDayCount_eq (yi : Int) :
    yearDayCount yi = 365 * yi + yi / 4 - yi / 100 + yi / 400 := by
  unfold yearDayCount
  have h1 : yi - (yi / 400) * 400 = yi % 400 := by omega
  rw [h1]
  omega

/-- `daysFromCivil` is linear in the day-of-month. -/
theorem daysFromCivil_day_linear (y m d : Int) :
    daysFromCivil y m d = daysFromCivil y m 1 + d - 1 := by
  unfold daysFromCivil
  omega

/-- The day after the last day of a month is the first day of the next
month: the calendar encoded by `daysFromCivil`/`daysInMonth` has no gap and
no overlap at month boundaries. -/
theorem month_end_succ (y m : Int) (h1 : 1 ≤ m) (h2 : m ≤ 12) :
    daysFromCivil y m (daysInMonth y m) + 1 = monthSuccStart y m := by
  interval_cases m <;>
    simp only [monthSuccStart, daysFromCivil, daysInMonth, isLeapYear, yearDayCount_eq,
      beq_iff_eq, bne, Bool.and_eq_true, Bool.or_eq_true, Bool.not_eq_true',
      decide_eq_true_eq, decide_eq_false_iff_not] <;>
    norm_num <;>
    omega

/-- Every month has between 28 and 31 days. -/
theorem daysInMonth_bounds (y m : Int) :
    28 ≤ daysInMonth y m ∧ daysInMonth y m ≤ 31 := by
  unfold daysInMonth
  split_ifs <;> norm_num

theorem countName_append {α : Type} (n : String) (l1 l2 : List (String × α)) :
    countName n (l1 ++ l2) = countName n l1 + countName n l2 := by
  simp [countName, List.filter_append]

theorem countName_id_capFieldPushes (attrs : List String) :
    countName "id" (capFieldPushes attrs) = 0 := by
  unfold capFieldPushes
  split_ifs <;> decide

theorem countName_tags_capFieldPushes (attrs : List String)
    (h : attrs.contains "tags" = true) :
    countName "tags" (capFieldPushes attrs) = 1 := by
  unfold capFieldPushes
  rw [h]
  split_ifs <;> first | decide | simp_all

/-- `String.join` length is the sum of the lengths. -/
theorem join_length (l : List String) :
    (String.join l).length = (l.map String.length).sum := by
  have key : ∀ (l : List String) (a : String),
      (List.foldl (fun r s => r ++ s) a l).length = a.length + (l.map String.length).sum := by
    intro l
    induction l with
    | nil => intro a; simp
    | cons x xs ih => intro a; simp [List.foldl_cons, ih, String.length_append]; omega
  calc (String.join l).length = "".length + (l.map String.length).sum := key l ""
    _ = (l.map String.length).sum := by simp

theorem string_length_eq_zero {s : String} : s.length = 0 ↔ s = "" := by
  constructor
  · intro h
    cases s with
    | mk data =>
      cases data with
      | nil => rfl
      | cons c cs => simp [String.length] at h
  · intro h; subst h; rfl

/-- What `has_tag` computes: membership conjoined with the tag being
non-empty (the byte-length test on the concatenation of the matches). -/
theorem has_tag_iff (tags : List String) (t : String) :
    has_tag tags t = true ↔ t ∈ tags ∧ t ≠ "" := by
  have hmatch : ∀ n : Nat, (match n with | 0 => false | _ => true) = true ↔ n ≠ 0 := by
    intro n; cases n <;> simp
  unfold has_tag
  rw [hmatch, List.filter_beq, join_length]
  simp only [List.map_replicate, List.sum_replicate, smul_eq_mul]
  rw [Nat.mul_ne_zero_iff]
  constructor
  · rintro ⟨hc, hl⟩
    exact ⟨List.count_pos_iff.mp (Nat.pos_of_ne_zero hc),
      fun he => hl (string_length_eq_zero.mpr he)⟩
  · rintro ⟨hm, hne⟩
    have hpos := List.count_pos_iff.mpr hm
    exact ⟨by omega, fun hz => hne (string_length_eq_zero.mp hz)⟩

/-- `remove_tag` on a present tag: the position is found and exactly one
element is removed. -/
theorem remove_tag_present (tags : List String) (t : String) (h : t ∈ tags) :
    ∃ tags2, remove_tag tags t = some tags2 ∧ tags2.length + 1 = tags.length := by
  induction tags with
  | nil => cases h
  | cons a rest ih =>
    by_cases ha : (a == t) = true
    · refine ⟨rest, ?_, by simp⟩
      unfold remove_tag
      rw [List.findIdx?_cons, if_pos ha]
      rfl
    · have hmem : t ∈ rest := by
        rcases List.mem_cons.mp h with h1 | h1
        · exact absurd (beq_iff_eq.mpr h1.symm) ha
        · exact h1
      obtain ⟨tags2, h2, h3⟩ := ih hmem
      refine ⟨a :: tags2, ?_, by simp only [List.length_cons]; omega⟩
      unfold remove_tag at h2 ⊢
      rw [List.findIdx?_cons, if_neg ha, List.findIdx?_succ]
      rcases hidx : List.findIdx? (fun x => x == t) rest 0 with _ | i
      · rw [hidx] at h2; cases h2
      · rw [hidx] at h2
        have h2' : some (rest.eraseIdx i) = some tags2 := h2
        injection h2' with h2'
        subst h2'
        simp only [Option.map_some']
        rfl

/-- `remove_tag` on an absent tag panics (`position(..).unwrap()` on `None`). -/
theorem remove_tag_absent (tags : List String) (t : String) (h : ¬ t ∈ tags) :
    remove_tag tags t = none := by
  unfold remove_tag
  have : List.findIdx? (fun x => x == t) tags 0 = none := by
    rw [List.findIdx?_eq_none_iff]
    intro x hx
    exact beq_eq_false_iff_ne.mpr (fun he => h (he ▸ hx))
  rw [this]

/-- `BTreeMap::remove` with an unknown key leaves the map unchanged. -/
theorem mapRemove_absent {α : Type} (m : List (String × α)) (ident : String)
    (h : ¬ ident ∈ m.map Prod.fst) : mapRemove m ident = m := by
  apply List.eraseP_of_forall_not
  intro kv hkv
  simp only [beq_iff_eq]
  intro he
  exact h (List.mem_map.mpr ⟨kv, hkv, he⟩)

/-- `add_tag` in closed form: a no-op exactly when the tag is a member AND
non-empty (the `has_tag` test), otherwise an append. -/
theorem add_tag_eq (tags : List String) (t : String) :
    add_tag tags t = if t ∈ tags ∧ t ≠ "" then tags else tags ++ [t] := by
  unfold add_tag
  rcases hb : has_tag tags t with _ | _
  · rw [if_neg]
    intro hc
    rw [(has_tag_iff tags t).mpr hc] at hb
    cases hb
  · rw [if_pos ((has_tag_iff tags t).mp hb)]

theorem contains_cons_of_ne (nm : String) (attrs : List String) (c : String)
    (hne : c ≠ nm) : (nm :: attrs).contains c = attrs.contains c := by
  have hb : (c == nm) = false := beq_eq_false_iff_ne.mpr hne
  have hb' : (nm == c) = false := beq_eq_false_iff_ne.mpr (Ne.symm hne)
  simp only [List.contains_cons, hb, hb', Bool.false_or]

/-- `reSearch` (the unanchored `is_match`) succeeds exactly when some
contiguous substring is accepted by the anchored matcher `reMatch`. -/
theorem reSearch_iff (r : RE) (cs : List Char) :
    reSearch r cs = true ↔
      ∃ pre mid post, cs = pre ++ mid ++ post ∧ reMatch r mid = true := by
  unfold reSearch
  rw [List.any_eq_true]
  constructor
  · rintro ⟨suf, hsuf, hin⟩
    rw [List.any_eq_true] at hin
    obtain ⟨mid, hmid, hm⟩ := hin
    obtain ⟨pre, hpre⟩ := (List.mem_tails suf cs).mp hsuf
    obtain ⟨post, hpost⟩ := (List.mem_inits mid suf).mp hmid
    refine ⟨pre, mid, post, ?_, hm⟩
    rw [List.append_assoc, hpost, hpre]
  · rintro ⟨pre, mid, post, hcs, hm⟩
    refine ⟨mid ++ post, ?_, ?_⟩
    · rw [List.mem_tails]
      exact ⟨pre, by rw [hcs, List.append_assoc]⟩
    · rw [List.any_eq_true]
      refine ⟨mid, ?_, hm⟩
      rw [List.mem_inits]
      exact ⟨post, rfl⟩

/-! ## Serde round-trip lemmas -/

/-! lemmas: digits and numbers -/

theorem digitC_spec : ∀ n : Nat, n < 10 →
    isDigitC (digitC n) = true ∧ (digitC n).toNat - 48 = n ∧ (1 ≤ n → digitC n ≠ '0') := by
  decide

theorem natChars_step (n : Nat) :
    natChars n = (if n < 10 then [] else natChars (n / 10)) ++ [digitC (n % 10)] := by
  rw [natChars]
  by_cases h : n < 10
  · simp [h, Nat.mod_eq_of_lt h]
  · simp [h]

theorem natChars_ne_nil (n : Nat) : natChars n ≠ [] := by
  rw [natChars_step]
  simp

theorem natChars_digits (n : Nat) : ∀ c ∈ natChars n, isDigitC c = true := by
  induction n using Nat.strong_induction_on with
  | _ n ih =>
    rw [natChars_step]
    intro c hc
    rcases List.mem_append.mp hc with h | h
    · by_cases h10 : n < 10
      · simp [h10] at h
      · exact ih (n / 10) (by omega) c (by simpa [h10] using h)
    · rw [List.mem_singleton] at h
      subst h
      exact (digitC_spec _ (Nat.mod_lt _ (by omega))).1

theorem natChars_head_pos (n : Nat) (h : 1 ≤ n) :
    ∃ c t, natChars n = c :: t ∧ isDigitC c = true ∧ c ≠ '0' := by
  induction n using Nat.strong_induction_on with
  | _ n ih =>
    by_cases h10 : n < 10
    · refine ⟨digitC n, [], ?_, (digitC_spec n h10).1, (digitC_spec n h10).2.2 h⟩
      rw [natChars_step]
      simp [h10, Nat.mod_eq_of_lt h10]
    · obtain ⟨c, t, hct, hd, hz⟩ := ih (n / 10) (by omega) (by omega)
      refine ⟨c, t ++ [digitC (n % 10)], ?_, hd, hz⟩
      rw [natChars_step]
      simp [h10, hct]

theorem foldl_digits_natChars (n : Nat) : ∀ acc : Nat,
    (natChars n).foldl (fun acc c => acc * 10 + (c.toNat - 48)) acc = acc * 10 ^ (natChars n).length + n := by
  induction n using Nat.strong_induction_on with
  | _ n ih =>
    intro acc
    by_cases h10 : n < 10
    · have hdt : (digitC n).toNat - 48 = n := (digitC_spec n h10).2.1
      rw [natChars_step]
      simp only [h10, if_pos, Nat.mod_eq_of_lt h10, List.nil_append, List.foldl_cons,
        List.foldl_nil, List.length_singleton, pow_one]
      omega
    · have hdt : (digitC (n % 10)).toNat - 48 = n % 10 :=
        (digitC_spec _ (Nat.mod_lt _ (by omega))).2.1
      have hlen : (natChars n).length = (natChars (n / 10)).length + 1 := by
        rw [natChars_step]
        simp [h10]
      conv_lhs => rw [natChars_step]
      rw [if_neg h10, List.foldl_append, ih (n / 10) (by omega) acc]
      simp only [List.foldl_cons, List.foldl_nil]
      rw [hlen, pow_succ, hdt]
      have hmul : acc * (10 ^ (natChars (n / 10)).length * 10)
          = acc * 10 ^ (natChars (n / 10)).length * 10 := by ring
      rw [hmul]
      omega

theorem digitsToNat_natChars (n : Nat) : digitsToNat (natChars n) = n := by
  have := foldl_digits_natChars n 0
  simpa [digitsToNat] using this

theorem takeDigitRun_stop (cs : List Char) (h : numStop cs = true) :
    takeDigitRun cs = ([], cs) := by
  cases cs with
  | nil => rfl
  | cons c t =>
    simp only [numStop, Bool.not_eq_true', Bool.or_eq_false_iff] at h
    rw [takeDigitRun, if_neg (by simp [h.1.1.1])]

theorem takeDigitRun_run (ds : List Char) (hds : ∀ c ∈ ds, isDigitC c = true)
    (rest : List Char) (hrest : takeDigitRun rest = ([], rest)) :
    takeDigitRun (ds ++ rest) = (ds, rest) := by
  induction ds with
  | nil => simpa using hrest
  | cons c t ih =>
    have hc : isDigitC c = true := hds c (by simp)
    have ht := ih (fun x hx => hds x (by simp [hx]))
    simp [takeDigitRun, hc, ht]

theorem floatFollows_of_numStop (rest : List Char) (h : numStop rest = true) :
    floatFollows rest = false := by
  cases rest with
  | nil => rfl
  | cons c t =>
    simp only [numStop, Bool.not_eq_true', Bool.or_eq_false_iff] at h
    simp [floatFollows, h.1.1.2, h.1.2, h.2]

theorem natChars_zero : natChars 0 = ['0'] := by
  rw [natChars_step]
  norm_num
  decide

theorem parseNumTail_natChars (neg : Bool) (n : Nat) (rest : List Char)
    (h : numStop rest = true) :
    parseNumTail neg (natChars n ++ rest)
      = some (if neg then -(n : Int) else (n : Int), rest) := by
  have htdr := takeDigitRun_run (natChars n) (natChars_digits n) rest (takeDigitRun_stop rest h)
  unfold parseNumTail
  by_cases hn : n = 0
  · subst hn
    rw [natChars_zero] at htdr ⊢
    rw [htdr]
    show (if '0' = '0' ∧ ([] : List Char) ≠ [] then none
      else if floatFollows rest then none
      else some (if neg then -(digitsToNat ['0'] : Int) else (digitsToNat ['0'] : Int), rest))
      = some (if neg then -((0 : Nat) : Int) else ((0 : Nat) : Int), rest)
    rw [if_neg (by simp), if_neg (by simp [floatFollows_of_numStop rest h])]
    have hz : ((digitsToNat ['0'] : Nat) : Int) = 0 := by decide
    rw [hz]
    cases neg <;> simp
  · obtain ⟨c, t, hct, hcd, hcz⟩ := natChars_head_pos n (by omega)
    rw [hct] at htdr ⊢
    rw [htdr]
    show (if c = '0' ∧ t ≠ [] then none
      else if floatFollows rest then none
      else some (if neg then -(digitsToNat (c :: t) : Int) else (digitsToNat (c :: t) : Int), rest))
      = some (if neg then -(n : Int) else (n : Int), rest)
    rw [if_neg (fun hcon => hcz hcon.1),
      if_neg (by simp [floatFollows_of_numStop rest h])]
    have hdig : digitsToNat (c :: t) = n := by rw [← hct]; exact digitsToNat_natChars n
    rw [hdig]

theorem parseNum_intChars (i : Int) (rest : List Char) (h : numStop rest = true) :
    parseNum (intChars i ++ rest) = some (i, rest) := by
  by_cases hneg : i < 0
  · have hshape : intChars i ++ rest = '-' :: (natChars i.natAbs ++ rest) := by
      simp [intChars, hneg]
    rw [hshape]
    have hstep : parseNum ('-' :: (natChars i.natAbs ++ rest))
        = parseNumTail true (natChars i.natAbs ++ rest) := rfl
    rw [hstep, parseNumTail_natChars true i.natAbs rest h]
    have habs : -((i.natAbs : Int)) = i := by omega
    rw [if_pos rfl, habs]
  · have hshape : intChars i ++ rest = natChars i.natAbs ++ rest := by
      simp [intChars, hneg]
    rw [hshape]
    have hstep : parseNum (natChars i.natAbs ++ rest)
        = parseNumTail false (natChars i.natAbs ++ rest) := by
      by_cases hn : i.natAbs = 0
      · rw [hn, natChars_zero]
        rfl
      · obtain ⟨c, t, hct, hcd, hcz⟩ := natChars_head_pos i.natAbs (by omega)
        rw [hct]
        unfold parseNum
        split
        · rename_i r0 heq
          exfalso
          have hcdash : c = '-' := by
            have := List.cons_append c t rest
            rw [this] at heq
            injection heq with h1 h2
          revert hcd
          rw [hcdash]
          decide
        · rfl
    rw [hstep, parseNumTail_natChars false i.natAbs rest h]
    have habs : ((i.natAbs : Int)) = i := by omega
    rw [if_neg (by simp), habs]

theorem hexValC_hexLowC : ∀ d : Nat, d < 16 → hexValC (hexLowC d) = some d := by
  decide

theorem hex4_00 (x y : Nat) (hx : x < 16) (hy : y < 16) :
    hex4 '0' '0' (hexLowC x) (hexLowC y) = some (x * 16 + y) := by
  unfold hex4
  rw [hexValC_hexLowC x hx, hexValC_hexLowC y hy]
  show some ((((0 : Nat) * 16 + 0) * 16 + x) * 16 + y) = some (x * 16 + y)
  congr 1
  omega

theorem char_eq_of_toNat {c : Char} {n : Nat} (h : c.toNat = n) : c = Char.ofNat n := by
  rw [← h, Char.ofNat_toNat]

theorem jEscape_length_pos (c : Char) : 1 ≤ (jEscape c).length := by
  unfold jEscape
  split_ifs <;> simp

theorem printStrBody_length_ge (cs : List Char) : cs.length ≤ (printStrBody cs).length := by
  induction cs with
  | nil => simp [printStrBody]
  | cons c t ih =>
    show t.length + 1 ≤ (jEscape c ++ printStrBody t).length
    rw [List.length_append]
    have := jEscape_length_pos c
    omega

theorem parseStrBody_escape (fuel : Nat) (c : Char) (acc rest : List Char) :
    parseStrBody (fuel + 1) acc (jEscape c ++ rest) = parseStrBody fuel (c :: acc) rest := by
  unfold jEscape
  split_ifs with h1 h2 h3 h4 h5 h6 h7 h8
  · subst h1; rfl
  · subst h2; rfl
  · rw [char_eq_of_toNat h3]; rfl
  · rw [char_eq_of_toNat h4]; rfl
  · rw [char_eq_of_toNat h5]; rfl
  · rw [char_eq_of_toNat h6]; rfl
  · rw [char_eq_of_toNat h7]; rfl
  · -- the \u00xx case
    have hi16 : c.toNat / 16 < 16 := by omega
    have lo16 : c.toNat % 16 < 16 := by omega
    have hx := hex4_00 (c.toNat / 16) (c.toNat % 16) hi16 lo16
    have hns1 : ¬ (0xD800 ≤ c.toNat / 16 * 16 + c.toNat % 16
        ∧ c.toNat / 16 * 16 + c.toNat % 16 ≤ 0xDBFF) := by omega
    have hns2 : ¬ (0xDC00 ≤ c.toNat / 16 * 16 + c.toNat % 16
        ∧ c.toNat / 16 * 16 + c.toNat % 16 ≤ 0xDFFF) := by omega
    have hcn : c.toNat / 16 * 16 + c.toNat % 16 = c.toNat := by omega
    show parseStrBody (fuel + 1) acc (bslashC :: 'u' :: '0' :: '0' ::
        hexLowC (c.toNat / 16) :: hexLowC (c.toNat % 16) :: rest)
      = parseStrBody fuel (c :: acc) rest
    show (match hex4 '0' '0' (hexLowC (c.toNat / 16)) (hexLowC (c.toNat % 16)) with
          | none => none
          | some code =>
            if 0xD800 ≤ code ∧ code ≤ 0xDBFF then
              match rest with
              | e1 :: u2 :: a2 :: b2 :: c3 :: d2 :: t4 =>
                if e1 = bslashC ∧ u2 = 'u' then
                  match hex4 a2 b2 c3 d2 with
                  | none => none
                  | some lo =>
                    if 0xDC00 ≤ lo ∧ lo ≤ 0xDFFF then
                      parseStrBody fuel
                        (Char.ofNat (0x10000 + (code - 0xD800) * 0x400 + (lo - 0xDC00)) :: acc) t4
                    else none
                else none
              | _ => none
            else if 0xDC00 ≤ code ∧ code ≤ 0xDFFF then none
            else parseStrBody fuel (Char.ofNat code :: acc) rest)
      = parseStrBody fuel (c :: acc) rest
    rw [hx]
    show (if 0xD800 ≤ c.toNat / 16 * 16 + c.toNat % 16
          ∧ c.toNat / 16 * 16 + c.toNat % 16 ≤ 0xDBFF then _
        else if 0xDC00 ≤ c.toNat / 16 * 16 + c.toNat % 16
          ∧ c.toNat / 16 * 16 + c.toNat % 16 ≤ 0xDFFF then none
        else parseStrBody fuel (Char.ofNat (c.toNat / 16 * 16 + c.toNat % 16) :: acc) rest)
      = parseStrBody fuel (c :: acc) rest
    rw [if_neg hns1, if_neg hns2, hcn, Char.ofNat_toNat]
  · -- raw character
    show parseStrBody (fuel + 1) acc (c :: rest) = parseStrBody fuel (c :: acc) rest
    conv_lhs => rw [parseStrBody.eq_def]
    simp only []
    rw [if_neg h1, if_neg h2, if_neg h8]

theorem parseStrBody_printStrBody (cs : List Char) : ∀ (fuel : Nat) (acc rest : List Char),
    cs.length < fuel →
    parseStrBody fuel acc (printStrBody cs ++ (quoteC :: rest))
      = some (String.mk (acc.reverse ++ cs), rest) := by
  induction cs with
  | nil =>
    intro fuel acc rest h
    match fuel, h with
    | f + 1, _ =>
      show parseStrBody (f + 1) acc (quoteC :: rest)
        = some (String.mk (acc.reverse ++ []), rest)
      rw [List.append_nil]
      rfl
  | cons c t ih =>
    intro fuel acc rest h
    match fuel, h with
    | f + 1, h =>
      show parseStrBody (f + 1) acc ((jEscape c ++ printStrBody t) ++ (quoteC :: rest)) = _
      rw [List.append_assoc, parseStrBody_escape, ih f (c :: acc) rest (by simp at h; omega)]
      simp

theorem parseStrBody_strChars_tail (fuel : Nat) (s : String) (rest : List Char)
    (h : s.data.length < fuel) :
    parseStrBody fuel [] (printStrBody s.data ++ (quoteC :: rest)) = some (s, rest) := by
  rw [parseStrBody_printStrBody s.data fuel [] rest h]
  cases s with
  | mk data => rfl

/-! lemmas: whitespace, head characters, parser bodies -/

theorem wsSkip_cons_not (c : Char) (t : List Char) (h : isWsC c = false) :
    wsSkip (c :: t) = c :: t := by
  rw [wsSkip, if_neg (by simp [h])]

theorem wsSkip_idem (cs : List Char) : wsSkip (wsSkip cs) = wsSkip cs := by
  induction cs with
  | nil => rfl
  | cons c t ih =>
    by_cases h : isWsC c = true
    · rw [show wsSkip (c :: t) = wsSkip t from by rw [wsSkip, if_pos h], ih]
    · have h2 : isWsC c = false := by revert h; cases isWsC c <;> simp
      rw [wsSkip_cons_not c t h2, wsSkip_cons_not c t h2]

theorem isDigitC_toNat {c : Char} (h : isDigitC c = true) : 48 ≤ c.toNat ∧ c.toNat ≤ 57 := by
  simp only [isDigitC, Bool.and_eq_true, decide_eq_true_eq] at h
  exact ⟨h.1, h.2⟩

theorem isWsC_false {c : Char}
    (h : ¬ (c.toNat = 32 ∨ c.toNat = 9 ∨ c.toNat = 10 ∨ c.toNat = 13)) :
    isWsC c = false := by
  cases hw : isWsC c
  · rfl
  · exfalso
    apply h
    simp only [isWsC, Bool.or_eq_true, decide_eq_true_eq] at hw
    rcases hw with ((hw | hw) | hw) | hw
    · left
      rw [hw]
      rfl
    · right; left; exact hw
    · right; right; left; exact hw
    · right; right; right; exact hw

theorem numHead_facts (c : Char) (h : c = '-' ∨ isDigitC c = true) :
    isWsC c = false ∧ ¬c = 'n' ∧ ¬c = 't' ∧ ¬c = 'f' ∧ ¬c = quoteC ∧ ¬c = '['
      ∧ ¬c = lbraceC ∧ ¬c = ']' := by
  have hn : 45 ≤ c.toNat ∧ c.toNat ≤ 57 := by
    rcases h with h | h
    · subst h
      exact ⟨by decide, by decide⟩
    · have h2 := isDigitC_toNat h
      exact ⟨by omega, h2.2⟩
  have hnd : ∀ d : Char, ¬ (45 ≤ d.toNat ∧ d.toNat ≤ 57) → ¬ c = d := by
    intro d hd he
    rw [he] at hn
    exact hd hn
  refine ⟨isWsC_false (by omega), hnd _ (by decide), hnd _ (by decide), hnd _ (by decide),
    hnd _ (by decide), hnd _ (by decide), hnd _ (by decide), hnd _ (by decide)⟩

theorem intChars_head (i : Int) :
    ∃ c t, intChars i = c :: t ∧ (c = '-' ∨ isDigitC c = true) := by
  by_cases hneg : i < 0
  · exact ⟨'-', natChars i.natAbs, by simp [intChars, hneg], Or.inl rfl⟩
  · cases hna : natChars i.natAbs with
    | nil => exact absurd hna (natChars_ne_nil _)
    | cons c t =>
      refine ⟨c, t, by simp [intChars, hneg, hna], Or.inr ?_⟩
      exact natChars_digits _ c (by rw [hna]; exact List.mem_cons_self c t)

theorem printJson_head (j : Json) :
    ∃ c t, printJson j = c :: t ∧ isWsC c = false ∧ ¬ c = ']' := by
  cases j with
  | jNull => exact ⟨'n', ['u', 'l', 'l'], by simp [printJson], by decide, by decide⟩
  | jBool b =>
    cases b with
    | false => exact ⟨'f', ['a', 'l', 's', 'e'], by simp [printJson], by decide, by decide⟩
    | true => exact ⟨'t', ['r', 'u', 'e'], by simp [printJson], by decide, by decide⟩
  | jNum i =>
    obtain ⟨c, t, hct, hc⟩ := intChars_head i
    obtain ⟨h1, _, _, _, _, _, _, h8⟩ := numHead_facts c hc
    exact ⟨c, t, by rw [show printJson (.jNum i) = intChars i from by simp [printJson], hct],
      h1, h8⟩
  | jStr s =>
    exact ⟨quoteC, printStrBody s.data ++ [quoteC], by simp [printJson, strChars],
      by decide, by decide⟩
  | jArr es =>
    exact ⟨'[', printArrItems es ++ [']'], by simp [printJson], by decide, by decide⟩
  | jObj ms =>
    exact ⟨lbraceC, printObjItems ms ++ [rbraceC], by simp [printJson], by decide, by decide⟩

theorem printJson_length_pos (j : Json) : 1 ≤ (printJson j).length := by
  obtain ⟨c, t, hct, _, _⟩ := printJson_head j
  rw [hct]
  simp

theorem printArrItems_head (e : Json) (es : List Json) :
    ∃ c t, printArrItems (e :: es) = c :: t ∧ isWsC c = false ∧ ¬ c = ']' := by
  obtain ⟨c, t, hct, h1, h2⟩ := printJson_head e
  cases es with
  | nil => exact ⟨c, t, by simp [printArrItems, hct], h1, h2⟩
  | cons e2 es2 =>
    exact ⟨c, t ++ ',' :: printArrItems (e2 :: es2), by simp [printArrItems, hct], h1, h2⟩

theorem printObjItems_head (kv : String × Json) (ms : List (String × Json)) :
    ∃ t, printObjItems (kv :: ms) = quoteC :: t := by
  obtain ⟨k, v⟩ := kv
  cases ms with
  | nil =>
    exact ⟨printStrBody k.data ++ quoteC :: ':' :: printJson v,
      by simp [printObjItems, strChars]⟩
  | cons kv2 ms2 =>
    exact ⟨printStrBody k.data
        ++ quoteC :: ':' :: (printJson v ++ ',' :: printObjItems (kv2 :: ms2)),
      by simp [printObjItems, strChars]⟩

theorem parseJVal_succ_cons (fuel : Nat) (c : Char) (r : List Char) (h : isWsC c = false) :
    parseJVal (fuel + 1) (c :: r) = jValBody fuel c r := by
  show (match wsSkip (c :: r) with
    | [] => none
    | c2 :: r2 => jValBody fuel c2 r2) = jValBody fuel c r
  rw [wsSkip_cons_not c r h]

theorem parseArrItems_succ (fuel : Nat) (cs : List Char) :
    parseArrItems (fuel + 1) cs =
      (match parseJVal fuel cs with
      | none => none
      | some (v, r) =>
        match wsSkip r with
        | [] => none
        | c2 :: r2 =>
          if c2 = ',' then
            match parseArrItems fuel r2 with
            | some (items, r3) => some (v :: items, r3)
            | none => none
          else if c2 = ']' then some ([v], r2)
          else none) := rfl

theorem parseObjItems_succ_cons (fuel : Nat) (c : Char) (r : List Char) (h : isWsC c = false) :
    parseObjItems (fuel + 1) (c :: r) =
      (if c = quoteC then
        match parseStrBody r.length [] r with
        | none => none
        | some (k, r1) =>
          match wsSkip r1 with
          | ':' :: r2 =>
            match parseJVal fuel r2 with
            | none => none
            | some (v, r3) =>
              match wsSkip r3 with
              | [] => none
              | c4 :: r4 =>
                if c4 = ',' then
                  match parseObjItems fuel r4 with
                  | some (members, r5) => some ((k, v) :: members, r5)
                  | none => none
                else if c4 = rbraceC then some ([(k, v)], r4)
                else none
          | _ => none
      else none) := by
  show (match wsSkip (c :: r) with
    | [] => none
    | c2 :: r2 =>
      if c2 = quoteC then
        match parseStrBody r2.length [] r2 with
        | none => none
        | some (k, r1) =>
          match wsSkip r1 with
          | ':' :: r3 =>
            match parseJVal fuel r3 with
            | none => none
            | some (v, r4) =>
              match wsSkip r4 with
              | [] => none
              | c4 :: r5 =>
                if c4 = ',' then
                  match parseObjItems fuel r5 with
                  | some (members, r6) => some ((k, v) :: members, r6)
                  | none => none
                else if c4 = rbraceC then some ([(k, v)], r5)
                else none
          | _ => none
      else none) = _
  rw [wsSkip_cons_not c r h]

/-- The serializer output parses back to the same value: the mutual
induction over the parser fuel covering values, array items and object
members. -/
theorem parse_print (fuel : Nat) :
    (∀ j rest, numStop rest = true → (printJson j).length < fuel →
      parseJVal fuel (printJson j ++ rest) = some (j, rest))
    ∧ (∀ e es rest, (printArrItems (e :: es)).length + 1 < fuel →
      parseArrItems fuel (printArrItems (e :: es) ++ (']' :: rest)) = some (e :: es, rest))
    ∧ (∀ kv ms rest, (printObjItems (kv :: ms)).length + 1 < fuel →
      parseObjItems fuel (printObjItems (kv :: ms) ++ (rbraceC :: rest))
        = some (kv :: ms, rest)) := by
  induction fuel with
  | zero =>
    exact ⟨fun j rest _ hlen => absurd hlen (by omega),
      fun e es rest hlen => absurd hlen (by omega),
      fun kv ms rest hlen => absurd hlen (by omega)⟩
  | succ fuel ih =>
    obtain ⟨ihP, ihA, ihO⟩ := ih
    refine ⟨?_, ?_, ?_⟩
    · intro j rest hstop hlen
      cases j with
      | jNull =>
        rw [show printJson .jNull = ['n', 'u', 'l', 'l'] from by simp [printJson]]
        rfl
      | jBool b =>
        cases b with
        | true =>
          rw [show printJson (.jBool true) = ['t', 'r', 'u', 'e'] from by simp [printJson]]
          rfl
        | false =>
          rw [show printJson (.jBool false) = ['f', 'a', 'l', 's', 'e'] from by
            simp [printJson]]
          rfl
      | jNum i =>
        obtain ⟨c, t, hct, hc⟩ := intChars_head i
        obtain ⟨hws, hn, ht, hf, hq, hlb, hbr, _⟩ := numHead_facts c hc
        have hpj : printJson (.jNum i) = c :: t := by
          rw [show printJson (.jNum i) = intChars i from by simp [printJson], hct]
        rw [hpj, List.cons_append, parseJVal_succ_cons fuel c (t ++ rest) hws]
        delta jValBody
        rw [if_neg hn, if_neg ht, if_neg hf, if_neg hq, if_neg hlb, if_neg hbr, if_pos hc,
          show c :: (t ++ rest) = intChars i ++ rest from by rw [← List.cons_append, ← hct],
          parseNum_intChars i rest hstop]
      | jStr s =>
        have hpj : printJson (.jStr s) = quoteC :: (printStrBody s.data ++ [quoteC]) := by
          simp [printJson, strChars]
        have hlen2 : s.data.length < (printStrBody s.data ++ (quoteC :: rest)).length := by
          rw [List.length_append, List.length_cons]
          have := printStrBody_length_ge s.data
          omega
        rw [hpj, List.cons_append, List.append_assoc,
          show [quoteC] ++ rest = quoteC :: rest from rfl,
          parseJVal_succ_cons fuel quoteC _ (by decide)]
        delta jValBody
        rw [if_neg (by decide), if_neg (by decide), if_neg (by decide), if_pos rfl,
          parseStrBody_strChars_tail _ s rest hlen2]
      | jArr es =>
        cases es with
        | nil =>
          rw [show printJson (.jArr []) = ['[', ']'] from by simp [printJson, printArrItems]]
          rfl
        | cons e es2 =>
          obtain ⟨cb, tb, hcb, hwsb, hnb⟩ := printArrItems_head e es2
          have hpj : printJson (.jArr (e :: es2))
              = '[' :: (printArrItems (e :: es2) ++ [']']) := by
            simp [printJson]
          have hfA : (printArrItems (e :: es2)).length + 1 < fuel := by
            have h2 : (printJson (.jArr (e :: es2))).length
                = (printArrItems (e :: es2)).length + 2 := by
              rw [hpj]
              simp
            omega
          rw [hpj, List.cons_append, List.append_assoc,
            show [']'] ++ rest = ']' :: rest from rfl,
            parseJVal_succ_cons fuel '[' _ (by decide)]
          delta jValBody
          rw [if_neg (by decide), if_neg (by decide), if_neg (by decide), if_neg (by decide),
            if_pos rfl, hcb, List.cons_append, wsSkip_cons_not cb _ hwsb]
          simp only []
          rw [if_neg hnb,
            show cb :: (tb ++ (']' :: rest)) = printArrItems (e :: es2) ++ (']' :: rest)
              from by rw [← List.cons_append, ← hcb],
            ihA e es2 rest hfA]
      | jObj ms =>
        cases ms with
        | nil =>
          rw [show printJson (.jObj []) = [lbraceC, rbraceC] from by
            simp [printJson, printObjItems]]
          rfl
        | cons kv ms2 =>
          obtain ⟨tb, hcb⟩ := printObjItems_head kv ms2
          have hpj : printJson (.jObj (kv :: ms2))
              = lbraceC :: (printObjItems (kv :: ms2) ++ [rbraceC]) := by
            simp [printJson]
          have hfO : (printObjItems (kv :: ms2)).length + 1 < fuel := by
            have h2 : (printJson (.jObj (kv :: ms2))).length
                = (printObjItems (kv :: ms2)).length + 2 := by
              rw [hpj]
              simp
            omega
          rw [hpj, List.cons_append, List.append_assoc,
            show [rbraceC] ++ rest = rbraceC :: rest from rfl,
            parseJVal_succ_cons fuel lbraceC _ (by decide)]
          delta jValBody
          rw [if_neg (by decide), if_neg (by decide), if_neg (by decide), if_neg (by decide),
            if_neg (by decide), if_pos rfl, hcb, List.cons_append,
            wsSkip_cons_not quoteC _ (by decide)]
          simp only []
          rw [if_neg (by decide),
            show quoteC :: (tb ++ (rbraceC :: rest))
                = printObjItems (kv :: ms2) ++ (rbraceC :: rest)
              from by rw [← List.cons_append, ← hcb],
            ihO kv ms2 rest hfO]
    · intro e es rest hlen
      cases es with
      | nil =>
        have hpa : printArrItems [e] = printJson e := by simp [printArrItems]
        have hfe : (printJson e).length < fuel := by
          rw [hpa] at hlen
          omega
        rw [hpa, parseArrItems_succ, ihP e (']' :: rest) (by rfl) hfe]
        simp only []
        rw [wsSkip_cons_not ']' rest (by decide)]
        rfl
      | cons e2 es2 =>
        have hpa : printArrItems (e :: e2 :: es2)
            = printJson e ++ ',' :: printArrItems (e2 :: es2) := by
          simp [printArrItems]
        have hlen2 : (printJson e).length + 1 + (printArrItems (e2 :: es2)).length + 1
            < fuel + 1 := by
          rw [hpa] at hlen
          simp only [List.length_append, List.length_cons] at hlen
          omega
        have hfe : (printJson e).length < fuel := by omega
        have hfA : (printArrItems (e2 :: es2)).length + 1 < fuel := by
          have := printJson_length_pos e
          omega
        rw [hpa, List.append_assoc, List.cons_append, parseArrItems_succ,
          ihP e (',' :: (printArrItems (e2 :: es2) ++ (']' :: rest))) (by rfl) hfe]
        simp only []
        rw [wsSkip_cons_not ',' _ (by decide)]
        simp only []
        rw [if_pos trivial, ihA e2 es2 rest hfA]
    · intro kv ms rest hlen
      obtain ⟨k, v⟩ := kv
      cases ms with
      | nil =>
        have hpo : printObjItems [(k, v)] = strChars k ++ ':' :: printJson v := by
          simp [printObjItems]
        have hsh : printObjItems [(k, v)] ++ (rbraceC :: rest)
            = quoteC :: (printStrBody k.data
                ++ (quoteC :: (':' :: (printJson v ++ (rbraceC :: rest))))) := by
          rw [hpo, strChars]
          simp [List.append_assoc]
        have hlenk : k.data.length < (printStrBody k.data
            ++ (quoteC :: (':' :: (printJson v ++ (rbraceC :: rest))))).length := by
          rw [List.length_append, List.length_cons]
          have := printStrBody_length_ge k.data
          omega
        have hfv : (printJson v).length < fuel := by
          rw [hpo] at hlen
          simp only [List.length_append, List.length_cons] at hlen
          omega
        rw [hsh, parseObjItems_succ_cons fuel quoteC _ (by decide), if_pos rfl,
          parseStrBody_strChars_tail _ k _ hlenk]
        simp only []
        rw [wsSkip_cons_not ':' _ (by decide)]
        simp only []
        rw [ihP v (rbraceC :: rest) (by rfl) hfv]
        simp only []
        rw [wsSkip_cons_not rbraceC _ (by decide)]
        simp only []
        rw [if_neg (by decide), if_pos trivial]
      | cons kv2 ms2 =>
        have hpo : printObjItems ((k, v) :: kv2 :: ms2)
            = strChars k ++ ':' :: (printJson v ++ ',' :: printObjItems (kv2 :: ms2)) := by
          simp [printObjItems]
        have hsh : printObjItems ((k, v) :: kv2 :: ms2) ++ (rbraceC :: rest)
            = quoteC :: (printStrBody k.data ++ (quoteC :: (':' :: (printJson v
                ++ (',' :: (printObjItems (kv2 :: ms2) ++ (rbraceC :: rest))))))) := by
          rw [hpo, strChars]
          simp [List.append_assoc]
        have hlenk : k.data.length < (printStrBody k.data ++ (quoteC :: (':' :: (printJson v
            ++ (',' :: (printObjItems (kv2 :: ms2) ++ (rbraceC :: rest))))))).length := by
          rw [List.length_append, List.length_cons]
          have := printStrBody_length_ge k.data
          omega
        have hlen2 : (strChars k).length + 1 + ((printJson v).length + 1
            + (printObjItems (kv2 :: ms2)).length) + 1 < fuel + 1 := by
          rw [hpo] at hlen
          simp only [List.length_append, List.length_cons] at hlen
          omega
        have hfv : (printJson v).length < fuel := by omega
        have hfO : (printObjItems (kv2 :: ms2)).length + 1 < fuel := by
          have := printJson_length_pos v
          omega
        rw [hsh, parseObjItems_succ_cons fuel quoteC _ (by decide), if_pos rfl,
          parseStrBody_strChars_tail _ k _ hlenk]
        simp only []
        rw [wsSkip_cons_not ':' _ (by decide)]
        simp only []
        rw [ihP v (',' :: (printObjItems (kv2 :: ms2) ++ (rbraceC :: rest))) (by rfl) hfv]
        simp only []
        rw [wsSkip_cons_not ',' _ (by decide)]
        simp only []
        rw [if_pos trivial, ihO kv2 ms2 rest hfO]

theorem decodeList_map {α : Type} (f : Json → Option α) (g : α → Json)
    (h : ∀ a, f (g a) = some a) (l : List α) : decodeList f (l.map g) = some l := by
  induction l with
  | nil => rfl
  | cons a t ih => simp [decodeList, h a, ih]

theorem activityFromJson_activityJson (a : ActivityItem) :
    activityFromJson (activityJson a) = some a := rfl

theorem asStr_jStr (s : String) : asStr (Json.jStr s) = some s := rfl

theorem entityFromJson_entityJson (e : Entity) : entityFromJson (entityJson e) = some e := by
  have h1 : entityFromJson (entityJson e)
      = (decodeList activityFromJson (e.activity.map activityJson)).bind (fun act =>
          (decodeList asStr (e.tags.map Json.jStr)).bind (fun tg =>
            some { id := e.id
                   created_dtm := e.created_dtm
                   modified_dtm := e.modified_dtm
                   inactive_dtm := e.inactive_dtm
                   expired_dtm := e.expired_dtm
                   activity := act
                   tags := tg })) := rfl
  rw [h1, decodeList_map activityFromJson activityJson activityFromJson_activityJson,
    decodeList_map asStr Json.jStr asStr_jStr]
  rfl

theorem serialize_data (e : Entity) : (serialize e).data = printJson (entityJson e) := rfl

theorem deserialized_serialize (e : Entity) : deserialized (serialize e) = some e := by
  unfold deserialized
  rw [serialize_data]
  have h2 : parseJVal ((printJson (entityJson e)).length + 1)
      (printJson (entityJson e) ++ []) = some (entityJson e, []) :=
    (parse_print _).1 _ [] rfl (by omega)
  rw [List.append_nil] at h2
  rw [h2]
  simp only []
  rw [if_pos (show wsSkip ([] : List Char) = [] from rfl), entityFromJson_entityJson]

theorem parseJVal_succ_wsSkip (fuel : Nat) (cs : List Char) :
    parseJVal (fuel + 1) cs = parseJVal (fuel + 1) (wsSkip cs) := by
  show (match wsSkip cs with
      | [] => none
      | c :: r => jValBody fuel c r)
    = (match wsSkip (wsSkip cs) with
      | [] => none
      | c :: r => jValBody fuel c r)
  rw [wsSkip_idem]

/-- `from_slice` also accepts the serialized text with a leading space: the
parse result is unchanged. -/
theorem deserialized_space (e : Entity) : deserialized (" " ++ serialize e) = some e := by
  have hdata : (" " ++ serialize e).data = ' ' :: printJson (entityJson e) := rfl
  have hws2 : wsSkip (' ' :: printJson (entityJson e)) = printJson (entityJson e) := by
    rw [show wsSkip (' ' :: printJson (entityJson e)) = wsSkip (printJson (entityJson e))
      from by rw [wsSkip, if_pos (by decide)]]
    obtain ⟨c, t, hct, hwsc, _⟩ := printJson_head (entityJson e)
    rw [hct, wsSkip_cons_not c t hwsc]
  have h3 : parseJVal ((printJson (entityJson e)).length + 1 + 1)
      (' ' :: printJson (entityJson e)) = some (entityJson e, []) := by
    rw [parseJVal_succ_wsSkip ((printJson (entityJson e)).length + 1)
      (' ' :: printJson (entityJson e)), hws2]
    have h2 := (parse_print ((printJson (entityJson e)).length + 1 + 1)).1
      (entityJson e) [] rfl (by omega)
    rw [List.append_nil] at h2
    exact h2
  unfold deserialized
  rw [hdata, List.length_cons, h3]
  simp only []
  rw [if_pos (show wsSkip ([] : List Char) = [] from rfl), entityFromJson_entityJson]

/-! # Claims -/

/-- C1 — code bug.  The claim: the completed initializer list produced by
`scaffolding_fn` preserves every explicitly initialized field, adds defaults
only for unset catalog fields, and every field appears exactly once — also
when the explicitly set field is a capability field such as `tags`.  The
dedup pass only consults `CORE_ATTRS`, so an explicitly set capability field
gets a second, synthesized initializer: with capability set `["tags"]` and
the user initializer list `[tags := <user expr>]`, the output contains
`tags` twice (a default `Vec::new()` initializer ahead of the user's), so
the field does not appear exactly once.  For contrast, an explicitly set
lifecycle field (`id`) is correctly preserved exactly once. -/
theorem c1_injector_duplicates_explicit_capability_field :
    scaffolding_fn ["tags"] [("tags", InitExpr.userExpr 0)] =
      [("tags", InitExpr.vecNew), ("activity", InitExpr.vecNew),
       ("expired_dtm", InitExpr.addYearsNow3), ("inactive_dtm", InitExpr.addDaysNow90),
       ("modified_dtm", InitExpr.defaultNow), ("created_dtm", InitExpr.defaultNow),
       ("id", InitExpr.defaultId), ("tags", InitExpr.userExpr 0)]
    ∧ countName "tags" (scaffolding_fn ["tags"] [("tags", InitExpr.userExpr 0)]) = 2
    ∧ scaffolding_fn [] [("id", InitExpr.userExpr 1)] =
      [("activity", InitExpr.vecNew), ("expired_dtm", InitExpr.addYearsNow3),
       ("inactive_dtm", InitExpr.addDaysNow90), ("modified_dtm", InitExpr.defaultNow),
       ("created_dtm", InitExpr.defaultNow), ("id", InitExpr.userExpr 1)]
    ∧ countName "id" (scaffolding_fn [] [("id", InitExpr.userExpr 1)]) = 1 := by
  refine ⟨by decide, by decide, by decide, by decide⟩

/-- C2 — counterexample.  A base field list that already declares `id` ends
up with two `id` fields after augmentation: `scaffolding_struct` is not
idempotent. -/
theorem c2_augmenter_duplicate_id_cex :
    countName "id" (scaffolding_struct [] [("id", FieldTy.tyUser 0)]) = 2
    ∧ scaffolding_struct [] [("id", FieldTy.tyUser 0)] ≠ scaffolding_struct [] [] := by
  refine ⟨by decide, by decide⟩

/-- C2 — amended.  `scaffolding_struct` appends the lifecycle fields and the
requested capability fields unconditionally, with no presence check: the
appended tail is independent of the base list, and a base list already
containing `id` (or a requested capability such as `tags`) receives one
additional field of that name, i.e. a duplicate. -/
theorem c2_augmenter_appends_unconditionally :
    ∀ (attrs : List String) (base : List (String × FieldTy)),
      scaffolding_struct attrs base = base ++ scaffolding_struct attrs []
      ∧ countName "id" (scaffolding_struct attrs base) = countName "id" base + 1
      ∧ (attrs.contains "tags" = true →
          countName "tags" (scaffolding_struct attrs base) = countName "tags" base + 1) := by
  intro attrs base
  refine ⟨by simp [scaffolding_struct], ?_, ?_⟩
  · rw [scaffolding_struct, countName_append, countName_append,
      countName_id_capFieldPushes]
    have h1 : countName "id" coreFieldPushes = 1 := by decide
    omega
  · intro h
    rw [scaffolding_struct, countName_append, countName_append,
      countName_tags_capFieldPushes attrs h]
    have h2 : countName "tags" coreFieldPushes = 0 := by decide
    omega

/-- Witness for C2: the amended statement evaluated at a concrete base list
that already declares both `id` and `tags`. -/
theorem c2_augmenter_appends_unconditionally_witness :
    countName "id"
      (scaffolding_struct ["tags"] [("id", FieldTy.tyUser 0), ("tags", FieldTy.tyUser 1)])
      = countName "id" [("id", FieldTy.tyUser 0), ("tags", FieldTy.tyUser 1)] + 1
    ∧ countName "tags"
      (scaffolding_struct ["tags"] [("id", FieldTy.tyUser 0), ("tags", FieldTy.tyUser 1)])
      = countName "tags" [("id", FieldTy.tyUser 0), ("tags", FieldTy.tyUser 1)] + 1 :=
  ⟨(c2_augmenter_appends_unconditionally ["tags"]
      [("id", FieldTy.tyUser 0), ("tags", FieldTy.tyUser 1)]).2.1,
   (c2_augmenter_appends_unconditionally ["tags"]
      [("id", FieldTy.tyUser 0), ("tags", FieldTy.tyUser 1)]).2.2 (by decide)⟩

/-- C3 — counterexample.  Adding the empty-string tag twice yields a tag
list of length 2, not 1: `has_tag` tests the length of the concatenation of
the matching tags, which is 0 for the empty tag even when it is present, so
the duplicate check never fires for `""`. -/
theorem c3_empty_tag_cex :
    add_tag (add_tag [] "") "" = ["", ""]
    ∧ (add_tag (add_tag [] "") "").length = 2
    ∧ has_tag [""] "" = false := by
  refine ⟨by decide, by decide, by decide⟩

/-- C3 — amended.  For every non-empty tag `t` the claimed algebra holds:
adding `t` twice yields length 1, `has_tag` reflects membership, and
removing a present tag shrinks the list by exactly 1.  For the empty-string
tag, `has_tag` always returns `false` (so membership is misreported and
`add_tag` appends a duplicate); `remove_tag` still removes one occurrence of
a present tag, the empty tag included. -/
theorem c3_tag_algebra :
    (∀ (tags : List String) (t : String), has_tag tags t = true ↔ t ∈ tags ∧ t ≠ "")
    ∧ (∀ t : String, t ≠ "" → add_tag (add_tag [] t) t = [t])
    ∧ (∀ tags : List String, has_tag tags "" = false)
    ∧ (∀ tags : List String, add_tag tags "" = tags ++ [""])
    ∧ (∀ (tags : List String) (t : String), t ∈ tags →
        ∃ tags2, remove_tag tags t = some tags2 ∧ tags2.length + 1 = tags.length) := by
  refine ⟨has_tag_iff, ?_, ?_, ?_, remove_tag_present⟩
  · intro t ht
    have h1 : add_tag [] t = [t] := by
      rw [add_tag_eq, if_neg (fun hc => (List.not_mem_nil t) hc.1)]
      rfl
    rw [h1, add_tag_eq, if_pos ⟨List.mem_singleton.mpr rfl, ht⟩]
  · intro tags
    rcases hb : has_tag tags "" with _ | _
    · rfl
    · obtain ⟨-, hne⟩ := (has_tag_iff tags "").mp hb
      exact absurd rfl hne
  · intro tags
    rw [add_tag_eq, if_neg (fun hc => hc.2 rfl)]

/-- Witness for C3: the amended algebra evaluated on the tag `"tag_1"` and
the list `["tag_1", "tag_2"]`. -/
theorem c3_tag_algebra_witness :
    (has_tag ["tag_1", "tag_2"] "tag_1" = true ↔
      "tag_1" ∈ ["tag_1", "tag_2"] ∧ "tag_1" ≠ "")
    ∧ add_tag (add_tag [] "tag_1") "tag_1" = ["tag_1"]
    ∧ (∃ tags2, remove_tag ["tag_1", "tag_2"] "tag_1" = some tags2
        ∧ tags2.length + 1 = (["tag_1", "tag_2"] : List String).length) :=
  ⟨c3_tag_algebra.1 ["tag_1", "tag_2"] "tag_1",
   c3_tag_algebra.2.1 "tag_1" (by decide),
   c3_tag_algebra.2.2.2.2 ["tag_1", "tag_2"] "tag_1" (by decide)⟩

/-- C4 — confirmed.  `remove_tag` on an absent tag is a hard failure (the
`position(..).unwrap()` panics, modelled as `none`), whereas
`remove_address`, `remove_email_address`, `remove_note` and
`remove_phone_number` with an unknown id are silent no-ops that leave the
collection unchanged. -/
theorem c4_removal_asymmetry :
    (∀ (tags : List String) (t : String), ¬ t ∈ tags → remove_tag tags t = none)
    ∧ (∀ (addresses : List (String × Address)) (ident : String),
        ¬ ident ∈ addresses.map Prod.fst → remove_address addresses ident = addresses)
    ∧ (∀ (emails : List (String × EmailAddress)) (ident : String),
        ¬ ident ∈ emails.map Prod.fst → remove_email_address emails ident = emails)
    ∧ (∀ (notes : List (String × Note)) (ident : String),
        ¬ ident ∈ notes.map Prod.fst → remove_note notes ident = notes)
    ∧ (∀ (phones : List (String × PhoneNumber)) (ident : String),
        ¬ ident ∈ phones.map Prod.fst → remove_phone_number phones ident = phones) :=
  ⟨remove_tag_absent,
   fun m i h => mapRemove_absent m i h,
   fun m i h => mapRemove_absent m i h,
   fun m i h => mapRemove_absent m i h,
   fun m i h => mapRemove_absent m i h⟩

/-- Witness for C4: removal at ids absent from concrete collections. -/
theorem c4_removal_asymmetry_witness :
    remove_tag ["tag_1"] "tag_2" = none
    ∧ remove_address
        [("a1", Address.new "a1" 0 0 "shipping" "l1" "l2" "l3" "l4" "USA")] "a2"
      = [("a1", Address.new "a1" 0 0 "shipping" "l1" "l2" "l3" "l4" "USA")]
    ∧ remove_note [("n1", Note.new "n1" 0 0 "fsmith" [1, 2] none)] "n2"
      = [("n1", Note.new "n1" 0 0 "fsmith" [1, 2] none)] :=
  ⟨c4_removal_asymmetry.1 ["tag_1"] "tag_2" (by decide),
   c4_removal_asymmetry.2.1 _ "a2" (by decide),
   c4_removal_asymmetry.2.2.2.1 _ "n2" (by decide)⟩

/-- C6 — code bug.  The claim: `search_notes` matches the search string as a
substring of the UTF-8 text of each note, with non-UTF-8 content matched
against its lossy decoding instead of failing.  On valid UTF-8 the substring
semantics hold (the spec's own three-note scenario), but the code calls
`Result::unwrap` on the value produced by `map_err` — still an `Err` for
invalid bytes — so a single note with invalid UTF-8 content (e.g. the byte
`0xFF`) makes the whole search panic (modelled as `none`) rather than match
lossily. -/
theorem c6_search_notes_panics_on_invalid_utf8 :
    search_notes
      [("a", Note.new "a" 0 0 "fsmith" ("This was updated".data.map Char.toNat) none),
       ("b", Note.new "b" 0 0 "fsmith" ("Something to find here".data.map Char.toNat) none),
       ("c", Note.new "c" 0 0 "fsmith" ("Nonething to find here".data.map Char.toNat) none)]
      "thing"
      = some
        [Note.new "b" 0 0 "fsmith" ("Something to find here".data.map Char.toNat) none,
         Note.new "c" 0 0 "fsmith" ("Nonething to find here".data.map Char.toNat) none]
    ∧ search_notes
      [("a", Note.new "a" 0 0 "fsmith" ("This was updated".data.map Char.toNat) none),
       ("x", Note.new "x" 0 0 "fsmith" [255] none)]
      "thing"
      = none
    ∧ utf8Decode [255] = none := by
  refine ⟨by decide, by decide, by decide⟩

/-- C8 — counterexample.  Requesting an unknown capability name raises no
configuration error: both the type augmenter and the constructor injector
produce exactly the output they produce for the empty capability set. -/
theorem c8_unknown_capability_cex :
    scaffolding_struct ["widgets"] [] = scaffolding_struct [] []
    ∧ scaffolding_fn ["widgets"] [] = scaffolding_fn [] [] := by
  refine ⟨by decide, by decide⟩

/-- C8 — amended.  A requested capability name outside the six catalog names
is silently ignored: augmentation and injection behave exactly as if the
name had not been requested at all, for every base field list and every
user initializer list.  No failure path exists in either transformation. -/
theorem c8_unknown_capability_silently_ignored :
    ∀ nm : String, ¬ nm ∈ capabilityCatalog →
      ∀ (attrs : List String) (base : List (String × FieldTy))
        (userFields : List (String × InitExpr)),
        scaffolding_struct (nm :: attrs) base = scaffolding_struct attrs base
        ∧ scaffolding_fn (nm :: attrs) userFields = scaffolding_fn attrs userFields := by
  intro nm hnm attrs base userFields
  have hc : ∀ c : String, c ∈ capabilityCatalog →
      (nm :: attrs).contains c = attrs.contains c := by
    intro c hcmem
    exact contains_cons_of_ne nm attrs c (fun he => hnm (he ▸ hcmem))
  constructor
  · unfold scaffolding_struct capFieldPushes
    rw [hc "addresses" (by decide), hc "email_addresses" (by decide),
      hc "metadata" (by decide), hc "notes" (by decide),
      hc "phone_numbers" (by decide), hc "tags" (by decide)]
  · unfold scaffolding_fn modifyAttrList
    rw [hc "addresses" (by decide), hc "email_addresses" (by decide),
      hc "metadata" (by decide), hc "notes" (by decide),
      hc "phone_numbers" (by decide), hc "tags" (by decide)]

/-- Witness for C8: the unknown name `"widgets"` on concrete inputs. -/
theorem c8_unknown_capability_silently_ignored_witness :
    scaffolding_struct ["widgets", "tags"] [("a", FieldTy.tyUser 0)]
      = scaffolding_struct ["tags"] [("a", FieldTy.tyUser 0)]
    ∧ scaffolding_fn ["widgets", "tags"] [("a", InitExpr.userExpr 0)]
      = scaffolding_fn ["tags"] [("a", InitExpr.userExpr 0)] :=
  c8_unknown_capability_silently_ignored "widgets" (by decide) ["tags"]
    [("a", FieldTy.tyUser 0)] [("a", InitExpr.userExpr 0)]

/-- C7 — confirmed.  The exact values `add_days(1711295319, 1) = 1711381719`,
`add_years(1711295319, 1) = 1742831319` and `never() = 253402261199` hold,
`add_years` is month addition by `12 * years`, and month addition clamps:
whenever the source day-of-month `d` exceeds the length of the target month
`(ty, tm)`, the result is exactly the last valid day of the target month
(same time of day), lies at or after the first day of the target month, and
stays strictly before the first day of the following month — it never
overflows into the following month. -/
theorem c7_date_arithmetic :
    add_days 1711295319 1 = 1711381719
    ∧ add_years 1711295319 1 = 1742831319
    ∧ never = 253402261199
    ∧ (∀ (dtm : Int) (years : Nat), add_years dtm years = add_months dtm (years * 12))
    ∧ (∀ (dtm : Int) (n : Nat) (y m d : Int),
        civilFromDays (dtm / 86400) = (y, m, d) →
        daysInMonth ((12 * y + (m - 1) + (n : Int)) / 12)
            ((12 * y + (m - 1) + (n : Int)) % 12 + 1) < d →
        add_months dtm n
            = daysFromCivil ((12 * y + (m - 1) + (n : Int)) / 12)
                ((12 * y + (m - 1) + (n : Int)) % 12 + 1)
                (daysInMonth ((12 * y + (m - 1) + (n : Int)) / 12)
                  ((12 * y + (m - 1) + (n : Int)) % 12 + 1)) * 86400
              + dtm % 86400
          ∧ daysFromCivil ((12 * y + (m - 1) + (n : Int)) / 12)
              ((12 * y + (m - 1) + (n : Int)) % 12 + 1) 1 * 86400 ≤ add_months dtm n
          ∧ add_months dtm n
              < monthSuccStart ((12 * y + (m - 1) + (n : Int)) / 12)
                  ((12 * y + (m - 1) + (n : Int)) % 12 + 1) * 86400) := by
  refine ⟨by decide, by decide, by decide, fun dtm years => rfl, ?_⟩
  intro dtm n y m d hciv hlt
  have key : add_months dtm n
      = daysFromCivil ((12 * y + (m - 1) + (n : Int)) / 12)
          ((12 * y + (m - 1) + (n : Int)) % 12 + 1)
          (min d (daysInMonth ((12 * y + (m - 1) + (n : Int)) / 12)
            ((12 * y + (m - 1) + (n : Int)) % 12 + 1))) * 86400
        + dtm % 86400 := by
    unfold add_months
    rw [hciv]
  rw [min_eq_right hlt.le] at key
  have hlin := daysFromCivil_day_linear ((12 * y + (m - 1) + (n : Int)) / 12)
    ((12 * y + (m - 1) + (n : Int)) % 12 + 1)
    (daysInMonth ((12 * y + (m - 1) + (n : Int)) / 12)
      ((12 * y + (m - 1) + (n : Int)) % 12 + 1))
  have hDb := daysInMonth_bounds ((12 * y + (m - 1) + (n : Int)) / 12)
    ((12 * y + (m - 1) + (n : Int)) % 12 + 1)
  have hs0 : 0 ≤ dtm % 86400 := Int.emod_nonneg dtm (by norm_num)
  have hs1 : dtm % 86400 < 86400 := Int.emod_lt_of_pos dtm (by norm_num)
  have htm1 : 1 ≤ (12 * y + (m - 1) + (n : Int)) % 12 + 1 := by omega
  have htm2 : (12 * y + (m - 1) + (n : Int)) % 12 + 1 ≤ 12 := by omega
  have hsucc := month_end_succ ((12 * y + (m - 1) + (n : Int)) / 12)
    ((12 * y + (m - 1) + (n : Int)) % 12 + 1) htm1 htm2
  refine ⟨key, ?_, ?_⟩
  · rw [key]; omega
  · rw [key]; omega

/-- Witness for C7: 2023-01-29 12:00:00 UTC (`1674993600`) plus one month
clamps to 2023-02-28 (the crate's own `test_add_months` value). -/
theorem c7_date_arithmetic_witness :
    add_months 1674993600 1
      = daysFromCivil ((12 * 2023 + (1 - 1) + ((1 : Nat) : Int)) / 12)
          ((12 * 2023 + (1 - 1) + ((1 : Nat) : Int)) % 12 + 1)
          (daysInMonth ((12 * 2023 + (1 - 1) + ((1 : Nat) : Int)) / 12)
            ((12 * 2023 + (1 - 1) + ((1 : Nat) : Int)) % 12 + 1)) * 86400
        + 1674993600 % 86400
    ∧ add_months 1674993600 1
        < monthSuccStart ((12 * 2023 + (1 - 1) + ((1 : Nat) : Int)) / 12)
            ((12 * 2023 + (1 - 1) + ((1 : Nat) : Int)) % 12 + 1) * 86400
    ∧ add_months 1674993600 1 = 1677585600 :=
  ⟨(c7_date_arithmetic.2.2.2.2 1674993600 1 2023 1 29 (by decide) (by decide)).1,
   (c7_date_arithmetic.2.2.2.2 1674993600 1 2023 1 29 (by decide) (by decide)).2.2,
   by decide⟩

/-- C9 — confirmed.  For each sub-entity (`Address`, `EmailAddress`,
`PhoneNumber`, `Note`): construction sets `created_dtm` and `modified_dtm`
to two successive `now()` reads, so `modified_dtm ≥ created_dtm` holds
whenever the clock is monotone (`t1 ≤ t2`); the update operations
(`Address::update`, `Note::update` — the only updates in the source) set
`modified_dtm` to the `now()` read `tNow` and never change `created_dtm`,
preserving the invariant whenever `tNow` is not before `created_dtm`. -/
theorem c9_subentity_dtm_invariant :
    (∀ (ident : String) (t1 t2 : Int) (c l1 l2 l3 l4 cc : String), t1 ≤ t2 →
        (Address.new ident t1 t2 c l1 l2 l3 l4 cc).created_dtm
          ≤ (Address.new ident t1 t2 c l1 l2 l3 l4 cc).modified_dtm)
    ∧ (∀ (ident : String) (t1 t2 : Int) (c a : String), t1 ≤ t2 →
        (EmailAddress.new ident t1 t2 c a).created_dtm
          ≤ (EmailAddress.new ident t1 t2 c a).modified_dtm)
    ∧ (∀ (ident : String) (t1 t2 : Int) (c num cc : String), t1 ≤ t2 →
        (PhoneNumber.new ident t1 t2 c num cc).created_dtm
          ≤ (PhoneNumber.new ident t1 t2 c num cc).modified_dtm)
    ∧ (∀ (ident : String) (t1 t2 : Int) (auth : String) (cont : List Nat)
        (acc : Option String), t1 ≤ t2 →
        (Note.new ident t1 t2 auth cont acc).created_dtm
          ≤ (Note.new ident t1 t2 auth cont acc).modified_dtm)
    ∧ (∀ (a : Address) (tNow : Int) (c l1 l2 l3 l4 cc : String),
        a.created_dtm ≤ tNow →
          (a.update tNow c l1 l2 l3 l4 cc).created_dtm = a.created_dtm
          ∧ (a.update tNow c l1 l2 l3 l4 cc).modified_dtm = tNow
          ∧ (a.update tNow c l1 l2 l3 l4 cc).created_dtm
              ≤ (a.update tNow c l1 l2 l3 l4 cc).modified_dtm)
    ∧ (∀ (nt : Note) (tNow : Int) (auth : String) (cont : List Nat)
        (acc : Option String), nt.created_dtm ≤ tNow →
          (nt.update tNow auth cont acc).created_dtm = nt.created_dtm
          ∧ (nt.update tNow auth cont acc).modified_dtm = tNow
          ∧ (nt.update tNow auth cont acc).created_dtm
              ≤ (nt.update tNow auth cont acc).modified_dtm) := by
  refine ⟨?_, ?_, ?_, ?_, ?_, ?_⟩
  · intro ident t1 t2 c l1 l2 l3 l4 cc h; exact h
  · intro ident t1 t2 c a h; exact h
  · intro ident t1 t2 c num cc h; exact h
  · intro ident t1 t2 auth cont acc h; exact h
  · intro a tNow c l1 l2 l3 l4 cc h; exact ⟨rfl, rfl, h⟩
  · intro nt tNow auth cont acc h; exact ⟨rfl, rfl, h⟩

/-- Witness for C9: a concrete `Address` built at times 10 ≤ 11 and updated
at time 42. -/
theorem c9_subentity_dtm_invariant_witness :
    (Address.new "a1" 10 11 "shipping" "l1" "l2" "l3" "l4" "USA").created_dtm
      ≤ (Address.new "a1" 10 11 "shipping" "l1" "l2" "l3" "l4" "USA").modified_dtm
    ∧ ((Address.new "a1" 10 11 "shipping" "l1" "l2" "l3" "l4" "USA").update 42
        "billing" "l1" "l2" "l3" "l4" "USA").created_dtm
      = (Address.new "a1" 10 11 "shipping" "l1" "l2" "l3" "l4" "USA").created_dtm
    ∧ ((Address.new "a1" 10 11 "shipping" "l1" "l2" "l3" "l4" "USA").update 42
        "billing" "l1" "l2" "l3" "l4" "USA").modified_dtm = 42
    ∧ (Note.new "n1" 10 11 "fsmith" [1] none).created_dtm
      ≤ (Note.new "n1" 10 11 "fsmith" [1] none).modified_dtm :=
  ⟨c9_subentity_dtm_invariant.1 "a1" 10 11 "shipping" "l1" "l2" "l3" "l4" "USA"
     (by norm_num),
   (c9_subentity_dtm_invariant.2.2.2.2.1
     (Address.new "a1" 10 11 "shipping" "l1" "l2" "l3" "l4" "USA") 42
     "billing" "l1" "l2" "l3" "l4" "USA" (by decide)).1,
   (c9_subentity_dtm_invariant.2.2.2.2.1
     (Address.new "a1" 10 11 "shipping" "l1" "l2" "l3" "l4" "USA") 42
     "billing" "l1" "l2" "l3" "l4" "USA" (by decide)).2.1,
   c9_subentity_dtm_invariant.2.2.2.1 "n1" 10 11 "fsmith" [1] none (by norm_num)⟩

/-- C10 — confirmed.  `EmailAddress::is_valid` is an unanchored substring
match: it returns true exactly when some contiguous substring of the
address belongs to the email pattern's language — so an address whose text
merely CONTAINS a well-formed email (here `(a@b.c`, which as a whole is not
in the language) is reported valid, while an address with no matching
substring (`myemail@example`, no dot in the domain) is reported invalid;
the spec's own positive example `myemail@example.com` matches outright. -/
theorem c10_email_is_valid_unanchored :
    (∀ e : EmailAddress, is_valid e = true ↔
        ∃ pre mid post, e.address.data = pre ++ mid ++ post ∧ reMatch emailRE mid = true)
    ∧ is_valid (EmailAddress.new "e1" 0 0 "home" "(a@b.c") = true
    ∧ reMatch emailRE "(a@b.c".data = false
    ∧ is_valid (EmailAddress.new "e2" 0 0 "home" "myemail@example") = false
    ∧ reMatch emailRE "myemail@example.com".data = true :=
  ⟨fun e => reSearch_iff emailRE e.address.data,
   by decide, by decide, by decide, by decide⟩

/-- C5 — counterexample.  The claimed `serialize (deserialized x) == x`
byte-for-byte law fails: prepending a single space to a serialized entity
yields a validly-formed wire text (`deserialized` accepts it and returns the
same entity, because `serde_json::from_slice` skips whitespace), yet
re-serializing prints the canonical compact form, which differs from the
input byte-for-byte. -/
theorem c5_serialize_of_deserialize_not_identity :
    deserialized (" " ++ serialize entityO) = some entityO
    ∧ serialize entityO ≠ " " ++ serialize entityO := by
  refine ⟨deserialized_space entityO, fun h => ?_⟩
  have h2 : (serialize entityO).data.length = (' ' :: (serialize entityO).data).length :=
    congrArg (fun s => s.data.length) h
  simp at h2

/-- C5 — amended.  The entity-to-entity half of the round-trip law holds:
for every entity, `deserialized (serialize e)` succeeds and reproduces every
observable field value (and `serialize` is a function of the field values,
so the emitted field order is deterministic).  The text-to-text half
(`serialize (deserialized x) == x` byte-for-byte for every validly-formed
`x`) is refuted by the counterexample above, since the wire format admits
whitespace variants of the same value. -/
theorem c5_deserialize_serialize_roundtrip (e : Entity) :
    deserialized (serialize e) = some e :=
  deserialized_serialize e

end ClassScaffolding
